import Mathlib

/-!
# The transaction sink worker of `cdc/sink/dmlsink/txn/worker.go`

A shallow embedding of the worker: `newWorker`, `onEvent`, `doFlush` and the
event loop `runLoop`.

* The worker owns two fields that the loop mutates, `hasPending` and the slice
  `postTxnExecutedCallbacks` (here: the ledger).  A Go slice is its elements in
  order together with its capacity.
* Everything outside the worker (the backend, the clock, the closures handed in
  with a task) acts on a world state `β`: each call maps the world to a new
  world and, when it has one, an answer.  `β` is arbitrary, so every sequence
  of answers can be scripted.
* What the worker does to the outside is recorded, in program order, as a list
  of `Effect`s: one entry per call of the backend, of a closure, of a metric,
  of the logger, and one per alternative taken by the `select` of the loop.
* The `select` is a choice made by the runtime: the loop is run against the
  list of alternatives that were taken, in order.  When that list is used up
  the loop is blocked in `select` and has not returned.
* Durations are `int64` nanoseconds.  Metrics receive `Duration.Seconds()`, a
  `float64`; the effects record the duration itself, and the busy ratio effect
  records the operands of the floating point expression, which `busyRatio`
  renders in exact arithmetic on rationals.
* A sequence of calls of `onEvent` and `doFlush` on a fresh worker is run by
  `calls`; `runLoop` only ever changes the worker through these two methods.
-/

namespace Txn

/-- An instant of the clock, in nanoseconds. -/
abbrev Time := Int

/-- A `time.Duration`: a signed 64 bit count of nanoseconds. -/
abbrev Duration := Int

/-- The identity of a `postTxnExecuted` closure. -/
abbrev Notifier := Nat

/-- The identity of an `error` value. -/
abbrev Err := Nat

/-- The largest `time.Duration`. -/
def maxDuration : Int := 9223372036854775807

/-- The smallest `time.Duration`. -/
def minDuration : Int := -9223372036854775808

/-- `t.Sub(u)`: the difference of two instants, saturating at the ends of the
range of `Duration`. -/
def timeSub (t u : Time) : Duration :=
  if maxDuration < t - u then maxDuration
  else if t - u < minDuration then minDuration
  else t - u

/-- Addition of two `int64` values as the machine does it (two's complement
wrap-around), used for `*flushTimeSlice += elapsed`. -/
def wrapInt64 (x : Int) : Int :=
  (x + 9223372036854775808) % 18446744073709551616 - 9223372036854775808

/-- Modelled from the spec: the lifecycle state of a table sink
(`state.TableSinkState`, declared outside `worker.go`); the spec enumerates
active (sinking), stopping and stopped.  `worker.go` only compares the state
with `state.TableSinkSinking`. -/
inductive TableSinkState
  | sinking
  | stopping
  | stopped
  deriving DecidableEq, Repr

/-- Modelled from the spec: a task (`txnEvent`, declared outside `worker.go`),
with the parts of it that `worker.go` reads: the embedded
`TxnCallbackableEvent` handed to the backend, the result of
`GetTableSinkState()`, the identity of the closure run by `Callback()`,
`len(Event.Rows)`, and the two timestamps. -/
structure txnEvent where
  TxnCallbackableEvent : Nat
  tableSinkState : TableSinkState
  Callback : Nat
  rows : Nat
  start : Time
  conflictResolved : Time
  deriving DecidableEq, Repr

/-- The item carried by `txnCh`: a task pointer, which may be nil, and the
notifier paired with it. -/
structure txnWithNotifier where
  txnEvent : Option txnEvent
  postTxnExecuted : Notifier
  deriving DecidableEq, Repr

/-- The alternative taken by one `select` of `runLoop`. -/
inductive Event
  | ctxDone
  | txn (t : txnWithNotifier)
  | tick
  | overseer (now : Time)
  deriving DecidableEq, Repr

/-- The messages `worker.go` logs. -/
inductive LogMsg
  | workerStarts
  | exitsAsCanceled
  | exitsUnexpectly (err : Err)
  | flushFail (err : Err)
  | closeFail (err : Err)
  deriving DecidableEq, Repr

/-- One interaction of the worker with the outside. -/
inductive Effect
  | select (ev : Event)
  | callback (c : Nat)
  | onTxnEvent (payload : Nat) (urgent : Bool)
  | flush (result : Option Err)
  | postTxnExecuted (n : Notifier)
  | close (result : Option Err)
  | observeConflictDetect (d : Duration)
  | observeQueue (d : Duration)
  | addHandledRows (rows : Nat)
  | observeFlush (d : Duration)
  | addBusyRatio (flushTimeSlice totalTimeSlice : Duration) (workerCount : Int)
  | log (m : LogMsg)
  deriving DecidableEq, Repr

/-- The outside of the worker over a world state `β`: the `backend` interface,
the clock (`time.Now`), what running the completion callback of a task and
running a notifier do to the world (both are closures of the caller and take
time), and the capacity the runtime gives a full slice of the given capacity
when `append` has to reallocate it. -/
structure Env (β : Type) where
  MaxFlushInterval : β → Duration
  OnTxnEvent : β → Nat → β × Bool
  Flush : β → β × Option Err
  Close : β → β × Option Err
  Now : β → β × Time
  Callback : β → Nat → β
  postTxnExecuted : β → Notifier → β
  growCap : Nat → Nat

/-- A slice of notifiers: its elements and its capacity. -/
structure Slice where
  elems : List Notifier
  cap : Nat
  deriving DecidableEq, Repr

/-- The result of `append(s, x)`: in place when there is room, otherwise in a
reallocated buffer. -/
def Slice.append (grow : Nat → Nat) (s : Slice) (x : Notifier) : Slice :=
  if s.elems.length < s.cap then { elems := s.elems ++ [x], cap := s.cap }
  else { elems := s.elems ++ [x], cap := grow s.cap }

/-- The fields of `worker` that its methods read or write after construction
(the context, the identifiers and the metric handles are fixed). -/
structure worker where
  workerCount : Int
  flushInterval : Duration
  hasPending : Bool
  postTxnExecutedCallbacks : Slice
  deriving DecidableEq, Repr

/-- The worker built by `newWorker`. -/
def newWorker {β : Type} (env : Env β) (b : β) (workerCount : Int) : worker :=
  { workerCount := workerCount
    flushInterval := env.MaxFlushInterval b
    hasPending := false
    postTxnExecutedCallbacks := { elems := [], cap := 1024 } }

/-- What a call of `onEvent` leaves behind. -/
structure OnEventRes (β : Type) where
  world : β
  w : worker
  trace : List Effect
  ret : Bool

/-- The method `onEvent`.  It dereferences `txn.txnEvent`; its only caller
passes a non-nil pointer, so the embedding takes the task itself and the
notifier of the item. -/
def onEvent {β : Type} (env : Env β) (b : β) (w : worker) (txn : txnEvent)
    (postTxnExecuted : Notifier) : OnEventRes β :=
  let w1 : worker := { w with hasPending := true }
  if txn.tableSinkState ≠ TableSinkState.sinking then
    { world := env.Callback b txn.Callback
      w := { w1 with postTxnExecutedCallbacks :=
               w1.postTxnExecutedCallbacks.append env.growCap postTxnExecuted }
      trace := [Effect.callback txn.Callback]
      ret := false }
  else
    let n := env.Now b
    let r := env.OnTxnEvent n.1 txn.TxnCallbackableEvent
    { world := r.1
      w := { w1 with postTxnExecutedCallbacks :=
               w1.postTxnExecutedCallbacks.append env.growCap postTxnExecuted }
      trace := [Effect.observeConflictDetect (timeSub txn.conflictResolved txn.start),
                Effect.observeQueue (timeSub n.2 txn.start),
                Effect.addHandledRows txn.rows,
                Effect.onTxnEvent txn.TxnCallbackableEvent r.2]
      ret := r.2 }

/-- The statements `cbs = cbs[:0]` and `if cap(cbs) > 1024 { cbs = make([]func(), 0, 1024) }`
of `doFlush`: the slice emptied, and reallocated at the baseline capacity when
its capacity had grown past it. -/
def clearedSlice (cbs : Slice) : Slice :=
  if 1024 < cbs.cap then { elems := [], cap := 1024 } else { elems := [], cap := cbs.cap }

/-- What a call of `doFlush` leaves behind; `flushTimeSlice` is the value behind
the pointer argument. -/
structure DoFlushRes (β : Type) where
  world : β
  w : worker
  flushTimeSlice : Duration
  trace : List Effect
  err : Option Err

/-- The method `doFlush`.  The deferred function runs on both ways out of the
`if`, last of all (after the notifiers when the flush succeeded): it reads the
clock, adds the elapsed time to `*flushTimeSlice` and observes it. -/
def doFlush {β : Type} (env : Env β) (b : β) (w : worker) (flushTimeSlice : Duration) :
    DoFlushRes β :=
  if w.hasPending then
    let s := env.Now b
    let f := env.Flush s.1
    match f.2 with
    | some err =>
      let t := env.Now f.1
      let elapsed := timeSub t.2 s.2
      { world := t.1
        w := w
        flushTimeSlice := wrapInt64 (flushTimeSlice + elapsed)
        trace := [Effect.flush (some err), Effect.log (LogMsg.flushFail err),
                  Effect.observeFlush elapsed]
        err := some err }
    | none =>
      let cbs := w.postTxnExecutedCallbacks
      let cleared : Slice := clearedSlice cbs
      let t := env.Now (cbs.elems.foldl env.postTxnExecuted f.1)
      let elapsed := timeSub t.2 s.2
      { world := t.1
        w := { w with postTxnExecutedCallbacks := cleared, hasPending := false }
        flushTimeSlice := wrapInt64 (flushTimeSlice + elapsed)
        trace := Effect.flush none :: (cbs.elems.map Effect.postTxnExecuted
                  ++ [Effect.observeFlush elapsed])
        err := none }
  else
    { world := b
      w := { w with hasPending := false }
      flushTimeSlice := flushTimeSlice
      trace := []
      err := none }

/-- The local variables of `runLoop` that live across iterations. -/
structure Locals where
  needFlush : Bool
  flushTimeSlice : Duration
  totalTimeSlice : Duration
  startToWork : Time
  deriving DecidableEq, Repr

/-- How `runLoop` ended: it returned an error value (nil or not), or it
panicked. -/
inductive Outcome
  | returned (err : Option Err)
  | panicked
  deriving DecidableEq, Repr

/-- The state after the `select` statement of one iteration. -/
structure Mid (β : Type) where
  world : β
  w : worker
  locals : Locals
  trace : List Effect

/-- The `select` statement of `runLoop` for the alternative taken; `none` is the
`return nil` of the cancellation case. -/
def selectCase {β : Type} (env : Env β) (b : β) (w : worker) (l : Locals) :
    Event → Option (Mid β)
  | Event.ctxDone => none
  | Event.txn t =>
    match t.txnEvent with
    | some te =>
      let r := onEvent env b w te t.postTxnExecuted
      some { world := r.world, w := r.w, locals := { l with needFlush := r.ret },
             trace := Effect.select (Event.txn t) :: r.trace }
    | none =>
      some { world := b, w := w, locals := l, trace := [Effect.select (Event.txn t)] }
  | Event.tick =>
    some { world := b, w := w, locals := { l with needFlush := true },
           trace := [Effect.select Event.tick] }
  | Event.overseer now =>
    let total := timeSub now l.startToWork
    some { world := b, w := w
           locals := { l with totalTimeSlice := total, startToWork := now, flushTimeSlice := 0 }
           trace := [Effect.select (Event.overseer now),
                     Effect.addBusyRatio l.flushTimeSlice total w.workerCount] }

/-- What one iteration of the loop leaves behind; `ret` is set when the
iteration executed a `return`. -/
structure IterRes (β : Type) where
  world : β
  w : worker
  locals : Locals
  trace : List Effect
  ret : Option Outcome

/-- The `if needFlush` statement that ends every iteration. -/
def flushIfNeeded {β : Type} (env : Env β) (m : Mid β) : IterRes β :=
  if m.locals.needFlush then
    let f := doFlush env m.world m.w m.locals.flushTimeSlice
    match f.err with
    | some err =>
      { world := f.world, w := f.w
        locals := { m.locals with flushTimeSlice := f.flushTimeSlice }
        trace := m.trace ++ (f.trace ++ [Effect.log (LogMsg.exitsUnexpectly err)])
        ret := some (Outcome.returned (some err)) }
    | none =>
      { world := f.world, w := f.w
        locals := { m.locals with flushTimeSlice := f.flushTimeSlice, needFlush := false }
        trace := m.trace ++ f.trace
        ret := none }
  else
    { world := m.world, w := m.w, locals := m.locals, trace := m.trace, ret := none }

/-- One iteration of the `for` statement of `runLoop`. -/
def loopIter {β : Type} (env : Env β) (b : β) (w : worker) (l : Locals) (ev : Event) :
    IterRes β :=
  match selectCase env b w l ev with
  | none =>
    { world := b, w := w, locals := l
      trace := [Effect.select ev, Effect.log LogMsg.exitsAsCanceled]
      ret := some (Outcome.returned none) }
  | some m => flushIfNeeded env m

/-- What a run of the loop leaves behind: `ret = none` when the alternatives
are used up and the loop is blocked in `select`; `rest` are the alternatives
that were not taken because the loop had returned. -/
structure LoopRes (β : Type) where
  world : β
  w : worker
  locals : Locals
  trace : List Effect
  ret : Option Outcome
  rest : List Event

/-- The `for` statement of `runLoop`, run against the alternatives taken by
its `select`. -/
def loop {β : Type} (env : Env β) (b : β) (w : worker) (l : Locals) :
    List Event → LoopRes β
  | [] => { world := b, w := w, locals := l, trace := [], ret := none, rest := [] }
  | ev :: evs =>
    let it := loopIter env b w l ev
    match it.ret with
    | some o =>
      { world := it.world, w := it.w, locals := it.locals, trace := it.trace,
        ret := some o, rest := evs }
    | none =>
      let r := loop env it.world it.w it.locals evs
      { world := r.world, w := r.w, locals := r.locals, trace := it.trace ++ r.trace,
        ret := r.ret, rest := r.rest }

/-- The log line that follows a call of `backend.Close` with the given
result. -/
def closeLog : Option Err → List Effect
  | some err => [Effect.log (LogMsg.closeFail err)]
  | none => []

/-- The first deferred function of `runLoop`: close the backend and log a
failure to do so. -/
def deferredClose {β : Type} (env : Env β) (b : β) : β × List Effect :=
  let c := env.Close b
  (c.1, Effect.close c.2 :: closeLog c.2)

/-- The `for` statement entered with the given locals, followed by the deferred
close once the loop has returned. -/
def runFrom {β : Type} (env : Env β) (b : β) (w : worker) (l : Locals) (evs : List Event) :
    LoopRes β :=
  let r := loop env b w l evs
  match r.ret with
  | some o =>
    let c := deferredClose env r.world
    { world := c.1, w := r.w, locals := r.locals, trace := r.trace ++ c.2,
      ret := some o, rest := r.rest }
  | none => r

/-- The locals as `runLoop` initialises them. -/
def initLocals (startToWork : Time) : Locals :=
  { needFlush := false, flushTimeSlice := 0, totalTimeSlice := 0, startToWork := startToWork }

/-- The method `runLoop`.  `time.NewTicker` panics on a non-positive period;
the deferred close, registered before, still runs. -/
def runLoop {β : Type} (env : Env β) (b : β) (w : worker) (evs : List Event) : LoopRes β :=
  if w.flushInterval ≤ 0 then
    let c := deferredClose env b
    { world := c.1, w := w, locals := initLocals 0
      trace := Effect.log LogMsg.workerStarts :: c.2
      ret := some Outcome.panicked, rest := evs }
  else
    let n := env.Now b
    let r := runFrom env n.1 w (initLocals n.2) evs
    { world := r.world, w := r.w, locals := r.locals
      trace := Effect.log LogMsg.workerStarts :: r.trace
      ret := r.ret, rest := r.rest }

/-! ## Reading a trace -/

/-- The notifiers invoked, in order. -/
def notified (tr : List Effect) : List Notifier :=
  tr.filterMap fun e => match e with
    | Effect.postTxnExecuted n => some n
    | _ => none

/-- The results of the calls of `backend.Flush`, in order. -/
def flushCalls (tr : List Effect) : List (Option Err) :=
  tr.filterMap fun e => match e with
    | Effect.flush r => some r
    | _ => none

/-- The payloads handed to `backend.OnTxnEvent`, in order. -/
def forwarded (tr : List Effect) : List Nat :=
  tr.filterMap fun e => match e with
    | Effect.onTxnEvent p _ => some p
    | _ => none

/-- The completion callbacks of tasks that were run, in order. -/
def callbacks (tr : List Effect) : List Nat :=
  tr.filterMap fun e => match e with
    | Effect.callback c => some c
    | _ => none

/-- The results of the calls of `backend.Close`, in order. -/
def closes (tr : List Effect) : List (Option Err) :=
  tr.filterMap fun e => match e with
    | Effect.close r => some r
    | _ => none

/-- The alternatives taken by the `select`, in order. -/
def selected (tr : List Effect) : List Event :=
  tr.filterMap fun e => match e with
    | Effect.select ev => some ev
    | _ => none

/-- The notifier a `select` alternative admits: the one of a received item
whose task is not nil. -/
def admittedBy : Event → Option Notifier
  | Event.txn t => if t.txnEvent.isSome then some t.postTxnExecuted else none
  | _ => none

/-- The notifiers of the tasks admitted, in order of admission. -/
def admitted (tr : List Effect) : List Notifier :=
  tr.filterMap fun e => match e with
    | Effect.select ev => admittedBy ev
    | _ => none

/-- The notifiers admitted since the last successful flush, after one more
effect: an admission adds its notifier, a successful flush starts afresh. -/
def bufferStep (acc : List Notifier) : Effect → List Notifier
  | Effect.select ev =>
    match admittedBy ev with
    | some n => acc ++ [n]
    | none => acc
  | Effect.flush none => []
  | _ => acc

/-- The notifiers admitted since the last successful flush at the end of a
trace, `acc` being those at its start. -/
def buffered (tr : List Effect) (acc : List Notifier) : List Notifier :=
  tr.foldl bufferStep acc

/-- An effect that is neither a successful flush nor a notifier invocation. -/
def Quiet (e : Effect) : Prop :=
  e ≠ Effect.flush none ∧ ∀ n, e ≠ Effect.postTxnExecuted n

/-- The shape of a trace in which notifiers are released in batches only:
`Batches acc tr acc2` holds when `tr`, started with `acc` buffered, is made of
quiet effects and of successful flushes each followed at once by all the
notifiers buffered at that point, and ends with `acc2` buffered. -/
inductive Batches : List Notifier → List Effect → List Notifier → Prop
  | done (acc : List Notifier) : Batches acc [] acc
  | quiet (acc : List Notifier) (e : Effect) (tr : List Effect) (acc2 : List Notifier) :
      Quiet e → Batches (bufferStep acc e) tr acc2 → Batches acc (e :: tr) acc2
  | batch (acc : List Notifier) (tr : List Effect) (acc2 : List Notifier) :
      Batches [] tr acc2 →
      Batches acc (Effect.flush none :: (acc.map Effect.postTxnExecuted ++ tr)) acc2

/-! ## A scripted outside, for concrete runs -/

/-- A world whose answers are written down in advance: the reading of the
clock, the results of the coming calls of `Flush`, the result of `Close`. -/
structure Script where
  clock : Int
  flushes : List (Option Err)
  closeErr : Option Err
  deriving DecidableEq, Repr

/-- The scripted outside: each reading of the clock advances it by 3, a flush
takes 40 and answers with the next scripted result (success when none is
left), the backend asks for a flush on odd payloads, callbacks and notifiers
take no time. -/
def scripted : Env Script where
  MaxFlushInterval := fun _ => 50000000
  OnTxnEvent := fun s p => (s, p % 2 == 1)
  Flush := fun s =>
    match s.flushes with
    | [] => ({ s with clock := s.clock + 40 }, none)
    | r :: rs => ({ s with clock := s.clock + 40, flushes := rs }, r)
  Close := fun s => (s, s.closeErr)
  Now := fun s => ({ s with clock := s.clock + 3 }, s.clock)
  Callback := fun s _ => s
  postTxnExecuted := fun s _ => s
  growCap := fun c => 2 * c + 1

/-- An initial world of the scripted outside. -/
def world0 (flushes : List (Option Err)) (closeErr : Option Err) : Script :=
  { clock := 100, flushes := flushes, closeErr := closeErr }

/-- A worker in the middle of a batch: two notifiers buffered. -/
def busyWorker : worker :=
  { workerCount := 4, flushInterval := 50000000, hasPending := true
    postTxnExecutedCallbacks := { elems := [7, 8], cap := 1024 } }

/-- A worker with nothing pending. -/
def idleWorker : worker :=
  { workerCount := 4, flushInterval := 50000000, hasPending := false
    postTxnExecutedCallbacks := { elems := [], cap := 1024 } }

/-- An effect that no reader of notifiers, flushes, closes or selects sees. -/
def Effect.inert : Effect → Bool
  | Effect.select _ => false
  | Effect.flush _ => false
  | Effect.postTxnExecuted _ => false
  | Effect.close _ => false
  | _ => true

/-- The ledger and the pending flag agree: nothing is buffered unless
something is pending. -/
def Tidy (w : worker) : Prop :=
  w.hasPending = false → w.postTxnExecutedCallbacks.elems = []

/-- Whether handling the alternative sets `needFlush`: a flush interval tick
does, and so does the admission of a task for which `onEvent` returns true. -/
def triggersFlush {β : Type} (env : Env β) (b : β) (w : worker) : Event → Bool
  | Event.tick => true
  | Event.txn t =>
    match t.txnEvent with
    | some te => (onEvent env b w te t.postTxnExecuted).ret
    | none => false
  | _ => false

/-- A task on a stopping table. -/
def stoppingTask : txnEvent :=
  { TxnCallbackableEvent := 11, tableSinkState := TableSinkState.stopping, Callback := 21,
    rows := 2, start := 90, conflictResolved := 95 }

/-- A task on a sinking table, with an odd payload. -/
def sinkingTask : txnEvent :=
  { TxnCallbackableEvent := 13, tableSinkState := TableSinkState.sinking, Callback := 23,
    rows := 3, start := 90, conflictResolved := 95 }

/-- The worker used in the concrete runs: fresh from `newWorker`, in a pool of
four. -/
def freshWorker : worker :=
  newWorker scripted (world0 [] none) 4

/-- A task on a stopping table with notifier 1, then a task on a sinking table
with notifier 2 for which the scripted backend asks for a flush. -/
def twoTasks : List Event :=
  [Event.txn { txnEvent := some stoppingTask, postTxnExecuted := 1 },
   Event.txn { txnEvent := some sinkingTask, postTxnExecuted := 2 }]

/-- The trace of the run of `twoTasks` up to the call of `Flush`. -/
def twoTasksBefore : List Effect :=
  [Effect.log LogMsg.workerStarts,
   Effect.select (Event.txn { txnEvent := some stoppingTask, postTxnExecuted := 1 }),
   Effect.callback 21,
   Effect.select (Event.txn { txnEvent := some sinkingTask, postTxnExecuted := 2 }),
   Effect.observeConflictDetect 5, Effect.observeQueue 13, Effect.addHandledRows 3,
   Effect.onTxnEvent 13 true]

/-- The trace of the run of `twoTasks` after the call of `Flush`. -/
def twoTasksAfter : List Effect :=
  [Effect.postTxnExecuted 1, Effect.postTxnExecuted 2, Effect.observeFlush 43]

/-- A task on a stopping table with notifier 1, then a flush interval tick. -/
def taskThenTick : List Event :=
  [Event.txn { txnEvent := some stoppingTask, postTxnExecuted := 1 }, Event.tick]

/-- A call of one of the two methods that change the worker after its
construction. -/
inductive Call
  | onEvent (txn : txnEvent) (postTxnExecuted : Notifier)
  | doFlush
  deriving DecidableEq, Repr

/-- A worker in the middle of a sequence of calls of `onEvent` and `doFlush`:
the world, the worker, the accumulator handed to `doFlush`, what was done so
far, and, for the record, the notifiers of the tasks admitted since the last
successful call of `backend.Flush`. -/
structure CallsRes (β : Type) where
  world : β
  w : worker
  flushTimeSlice : Duration
  trace : List Effect
  sinceFlush : List Notifier

/-- One more call: `onEvent` admits a task, `doFlush` starts the record afresh
when it called `backend.Flush` and the call succeeded. -/
def callStep {β : Type} (env : Env β) (s : CallsRes β) : Call → CallsRes β
  | Call.onEvent txn n =>
    let r := onEvent env s.world s.w txn n
    { world := r.world, w := r.w, flushTimeSlice := s.flushTimeSlice
      trace := s.trace ++ r.trace, sinceFlush := s.sinceFlush ++ [n] }
  | Call.doFlush =>
    let f := doFlush env s.world s.w s.flushTimeSlice
    { world := f.world, w := f.w, flushTimeSlice := f.flushTimeSlice
      trace := s.trace ++ f.trace
      sinceFlush := if none ∈ flushCalls f.trace then [] else s.sinceFlush }

/-- A sequence of calls of `onEvent` and `doFlush` on a worker fresh from
`newWorker`. -/
def calls {β : Type} (env : Env β) (b0 b : β) (workerCount : Int) (cs : List Call) :
    CallsRes β :=
  cs.foldl (callStep env)
    { world := b, w := newWorker env b0 workerCount, flushTimeSlice := 0, trace := [],
      sinceFlush := [] }

/-- The log line of `runLoop` that follows a call of `doFlush` with the given
result. -/
def exitLog : Option Err → List Effect
  | some err => [Effect.log (LogMsg.exitsUnexpectly err)]
  | none => []

/-- What `runLoop` returns after a call of `doFlush` with the given result:
the error when there is one, otherwise it goes on. -/
def exitWith : Option Err → Option Outcome
  | some err => some (Outcome.returned (some err))
  | none => none

/-- An outside with a clock whose readings take no time: a flush always
succeeds and takes `flushTakes`, each notifier takes `notifierTakes`, the
backend always asks for a flush. -/
def timed (flushTakes notifierTakes : Int) : Env Script where
  MaxFlushInterval := fun _ => 50000000
  OnTxnEvent := fun s _ => (s, true)
  Flush := fun s => ({ s with clock := s.clock + flushTakes }, none)
  Close := fun s => (s, s.closeErr)
  Now := fun s => (s, s.clock)
  Callback := fun s _ => s
  postTxnExecuted := fun s _ => { s with clock := s.clock + notifierTakes }
  growCap := fun c => 2 * c + 1

/-- The `select` alternatives taken, the calls of `backend.Flush` and the
notifier invocations of a trace, in order. -/
def skeleton (tr : List Effect) : List Effect :=
  tr.filter fun e => match e with
    | Effect.select _ => true
    | Effect.flush _ => true
    | Effect.postTxnExecuted _ => true
    | _ => false

/-- The `select` alternative that admits the given task with the given
notifier. -/
def admission (p : txnEvent × Notifier) : Event :=
  Event.txn { txnEvent := some p.1, postTxnExecuted := p.2 }

/-- What the admission of an urgent task shows in the skeleton of a trace: the
receipt, one successful flush, the notifier of the task. -/
def urgentRound (p : txnEvent × Notifier) : List Effect :=
  [Effect.select (admission p), Effect.flush none, Effect.postTxnExecuted p.2]

/-- The skeleton of a run in which every task is urgent. -/
def urgentRounds : List (txnEvent × Notifier) → List Effect
  | [] => []
  | p :: ps => urgentRound p ++ urgentRounds ps

/-- Three tasks on a sinking table, with the notifiers 1, 2 and 3. -/
def threeTasks : List (txnEvent × Notifier) :=
  [(sinkingTask, 1), (sinkingTask, 2), (sinkingTask, 3)]

/-! ## `doFlush` -/

theorem notified_append (a c : List Effect) : notified (a ++ c) = notified a ++ notified c := by
  simp [notified, List.filterMap_append]

theorem flushCalls_append (a c : List Effect) :
    flushCalls (a ++ c) = flushCalls a ++ flushCalls c := by
  simp [flushCalls, List.filterMap_append]

theorem notified_map (l : List Notifier) : notified (l.map Effect.postTxnExecuted) = l := by
  induction l with
  | nil => rfl
  | cons a t ih =>
    have h : notified (Effect.postTxnExecuted a :: t.map Effect.postTxnExecuted)
        = a :: notified (t.map Effect.postTxnExecuted) := rfl
    rw [List.map_cons, h, ih]

theorem flushCalls_map (l : List Notifier) : flushCalls (l.map Effect.postTxnExecuted) = [] := by
  induction l with
  | nil => rfl
  | cons a t ih =>
    have h : flushCalls (Effect.postTxnExecuted a :: t.map Effect.postTxnExecuted)
        = flushCalls (t.map Effect.postTxnExecuted) := rfl
    rw [List.map_cons, h, ih]

/-- The trace of a successful flush, read for notifiers. -/
theorem notified_flushed (l : List Notifier) (d : Duration) :
    notified (Effect.flush none :: (l.map Effect.postTxnExecuted ++ [Effect.observeFlush d]))
      = l := by
  have h : ∀ t, notified (Effect.flush none :: t) = notified t := fun _ => rfl
  rw [h, notified_append, notified_map]
  exact List.append_nil l

/-- The trace of a successful flush, read for calls of `Flush`. -/
theorem flushCalls_flushed (l : List Notifier) (d : Duration) :
    flushCalls (Effect.flush none :: (l.map Effect.postTxnExecuted ++ [Effect.observeFlush d]))
      = [none] := by
  have h : ∀ t, flushCalls (Effect.flush none :: t) = none :: flushCalls t := fun _ => rfl
  rw [h, flushCalls_append, flushCalls_map]
  rfl

/-- `doFlush` when something is pending and the flush succeeds. -/
theorem doFlush_of_success {β : Type} (env : Env β) (b : β) (w : worker) (fts : Duration)
    (hp : w.hasPending = true) (hf : (env.Flush (env.Now b).1).2 = none) :
    doFlush env b w fts =
      { world := (env.Now (w.postTxnExecutedCallbacks.elems.foldl env.postTxnExecuted
            (env.Flush (env.Now b).1).1)).1
        w := { w with postTxnExecutedCallbacks := clearedSlice w.postTxnExecutedCallbacks,
                      hasPending := false }
        flushTimeSlice := wrapInt64
          (fts + timeSub (env.Now (w.postTxnExecutedCallbacks.elems.foldl env.postTxnExecuted
            (env.Flush (env.Now b).1).1)).2 (env.Now b).2)
        trace := Effect.flush none ::
          (w.postTxnExecutedCallbacks.elems.map Effect.postTxnExecuted ++
            [Effect.observeFlush
              (timeSub (env.Now (w.postTxnExecutedCallbacks.elems.foldl env.postTxnExecuted
                (env.Flush (env.Now b).1).1)).2 (env.Now b).2)])
        err := none } := by
  rw [doFlush, if_pos hp]
  simp only [hf]

/-- `doFlush` when something is pending and the flush fails. -/
theorem doFlush_of_failure {β : Type} (env : Env β) (b : β) (w : worker) (fts : Duration)
    (e : Err) (hp : w.hasPending = true) (hf : (env.Flush (env.Now b).1).2 = some e) :
    doFlush env b w fts =
      { world := (env.Now (env.Flush (env.Now b).1).1).1
        w := w
        flushTimeSlice := wrapInt64
          (fts + timeSub (env.Now (env.Flush (env.Now b).1).1).2 (env.Now b).2)
        trace := [Effect.flush (some e), Effect.log (LogMsg.flushFail e),
          Effect.observeFlush
            (timeSub (env.Now (env.Flush (env.Now b).1).1).2 (env.Now b).2)]
        err := some e } := by
  rw [doFlush, if_pos hp]
  simp only [hf]

/-- `doFlush` when nothing is pending. -/
theorem doFlush_of_idle {β : Type} (env : Env β) (b : β) (w : worker) (fts : Duration)
    (hp : w.hasPending = false) :
    doFlush env b w fts =
      { world := b, w := w, flushTimeSlice := fts, trace := [], err := none } := by
  have hw : ({ w with hasPending := false } : worker) = w := by
    cases w
    simp_all
  rw [doFlush, hp, if_neg (by simp), hw]

/-- C1: when something is pending and `backend.Flush` succeeds, `doFlush`
returns nil; what it does is exactly: the call of `Flush`, then the notifiers
of the ledger, each once, in ledger order, then the observation of the flush
duration; the ledger is left empty and `hasPending` false. -/
theorem doFlush_success {β : Type} (env : Env β) (b : β) (w : worker) (fts : Duration)
    (hp : w.hasPending = true) (hf : (env.Flush (env.Now b).1).2 = none) :
    (doFlush env b w fts).err = none ∧
    (doFlush env b w fts).trace =
      Effect.flush none :: (w.postTxnExecutedCallbacks.elems.map Effect.postTxnExecuted ++
        [Effect.observeFlush
          (timeSub (env.Now (w.postTxnExecutedCallbacks.elems.foldl env.postTxnExecuted
            (env.Flush (env.Now b).1).1)).2 (env.Now b).2)]) ∧
    notified (doFlush env b w fts).trace = w.postTxnExecutedCallbacks.elems ∧
    flushCalls (doFlush env b w fts).trace = [none] ∧
    (doFlush env b w fts).w.postTxnExecutedCallbacks.elems = [] ∧
    (doFlush env b w fts).w.hasPending = false := by
  rw [doFlush_of_success env b w fts hp hf]
  refine ⟨rfl, rfl, notified_flushed _ _, flushCalls_flushed _ _, ?_, rfl⟩
  show (clearedSlice w.postTxnExecutedCallbacks).elems = []
  unfold clearedSlice
  split <;> rfl

/-- The statement of C1 on a worker with the ledger `[7, 8]`. -/
theorem doFlush_success_witness :
    busyWorker.hasPending = true ∧
    (scripted.Flush (scripted.Now (world0 [] none)).1).2 = none ∧
    (doFlush scripted (world0 [] none) busyWorker 0).err = none ∧
    notified (doFlush scripted (world0 [] none) busyWorker 0).trace = [7, 8] ∧
    (doFlush scripted (world0 [] none) busyWorker 0).w.postTxnExecutedCallbacks.elems = [] :=
  have h := doFlush_success scripted (world0 [] none) busyWorker 0 rfl rfl
  ⟨rfl, rfl, h.1, h.2.2.1, h.2.2.2.2.1⟩

/-- C2: when something is pending and `backend.Flush` fails with `e`, `doFlush`
returns `e`; what it does is exactly: the one call of `Flush`, the log line and
the observation of the flush duration, so no notifier is invoked and `Flush` is
not called again; the worker (ledger and `hasPending`) is unchanged. -/
theorem doFlush_failure {β : Type} (env : Env β) (b : β) (w : worker) (fts : Duration)
    (e : Err) (hp : w.hasPending = true) (hf : (env.Flush (env.Now b).1).2 = some e) :
    (doFlush env b w fts).err = some e ∧
    (doFlush env b w fts).trace =
      [Effect.flush (some e), Effect.log (LogMsg.flushFail e),
       Effect.observeFlush
         (timeSub (env.Now (env.Flush (env.Now b).1).1).2 (env.Now b).2)] ∧
    notified (doFlush env b w fts).trace = [] ∧
    flushCalls (doFlush env b w fts).trace = [some e] ∧
    (doFlush env b w fts).w = w := by
  rw [doFlush_of_failure env b w fts e hp hf]
  exact ⟨rfl, rfl, rfl, rfl, rfl⟩

/-- The statement of C2 on a worker with the ledger `[7, 8]` and a backend
whose flush fails with error 5. -/
theorem doFlush_failure_witness :
    busyWorker.hasPending = true ∧
    (scripted.Flush (scripted.Now (world0 [some 5] none)).1).2 = some 5 ∧
    (doFlush scripted (world0 [some 5] none) busyWorker 0).err = some 5 ∧
    notified (doFlush scripted (world0 [some 5] none) busyWorker 0).trace = [] ∧
    (doFlush scripted (world0 [some 5] none) busyWorker 0).w = busyWorker :=
  have h := doFlush_failure scripted (world0 [some 5] none) busyWorker 0 5 rfl rfl
  ⟨rfl, rfl, h.1, h.2.2.1, h.2.2.2.2⟩

/-- C10: when nothing is pending `doFlush` does nothing: it returns nil,
performs no effect at all (no call of `Flush`, no notifier, no clock reading),
and leaves the worker, the world and the flush time accumulator as they were. -/
theorem doFlush_idle {β : Type} (env : Env β) (b : β) (w : worker) (fts : Duration)
    (hp : w.hasPending = false) :
    (doFlush env b w fts).err = none ∧
    (doFlush env b w fts).trace = [] ∧
    flushCalls (doFlush env b w fts).trace = [] ∧
    notified (doFlush env b w fts).trace = [] ∧
    (doFlush env b w fts).w = w ∧
    (doFlush env b w fts).world = b ∧
    (doFlush env b w fts).flushTimeSlice = fts := by
  rw [doFlush_of_idle env b w fts hp]
  exact ⟨rfl, rfl, rfl, rfl, rfl, rfl, rfl⟩

/-- The statement of C10 on the idle worker, with 17 in the accumulator. -/
theorem doFlush_idle_witness :
    idleWorker.hasPending = false ∧
    (doFlush scripted (world0 [] none) idleWorker 17).trace = [] ∧
    (doFlush scripted (world0 [] none) idleWorker 17).w = idleWorker ∧
    (doFlush scripted (world0 [] none) idleWorker 17).flushTimeSlice = 17 :=
  have h := doFlush_idle scripted (world0 [] none) idleWorker 17 rfl
  ⟨rfl, h.2.1, h.2.2.2.2.1, h.2.2.2.2.2.2⟩

/-! ## `onEvent` -/

theorem Slice.append_elems (grow : Nat → Nat) (s : Slice) (x : Notifier) :
    (s.append grow x).elems = s.elems ++ [x] := by
  unfold Slice.append
  split <;> rfl

/-- `onEvent` on a task whose table is not sinking. -/
theorem onEvent_of_not_sinking {β : Type} (env : Env β) (b : β) (w : worker) (txn : txnEvent)
    (n : Notifier) (h : txn.tableSinkState ≠ TableSinkState.sinking) :
    onEvent env b w txn n =
      { world := env.Callback b txn.Callback
        w := { w with hasPending := true
                      postTxnExecutedCallbacks :=
                        w.postTxnExecutedCallbacks.append env.growCap n }
        trace := [Effect.callback txn.Callback]
        ret := false } := by
  rw [onEvent, if_pos h]

/-- `onEvent` on a task whose table is sinking. -/
theorem onEvent_of_sinking {β : Type} (env : Env β) (b : β) (w : worker) (txn : txnEvent)
    (n : Notifier) (h : txn.tableSinkState = TableSinkState.sinking) :
    onEvent env b w txn n =
      { world := (env.OnTxnEvent (env.Now b).1 txn.TxnCallbackableEvent).1
        w := { w with hasPending := true
                      postTxnExecutedCallbacks :=
                        w.postTxnExecutedCallbacks.append env.growCap n }
        trace := [Effect.observeConflictDetect (timeSub txn.conflictResolved txn.start),
                  Effect.observeQueue (timeSub (env.Now b).2 txn.start),
                  Effect.addHandledRows txn.rows,
                  Effect.onTxnEvent txn.TxnCallbackableEvent
                    (env.OnTxnEvent (env.Now b).1 txn.TxnCallbackableEvent).2]
        ret := (env.OnTxnEvent (env.Now b).1 txn.TxnCallbackableEvent).2 } := by
  rw [onEvent, if_neg (by simp [h])]

/-- C6: for a task whose table is not sinking (stopping or stopped), `onEvent`
does exactly one thing to the outside, the task's completion callback, so it
neither calls `backend.OnTxnEvent` nor invokes the notifier; it appends the
notifier at the end of the ledger, leaving the earlier entries as they were,
sets `hasPending`, and returns false. -/
theorem onEvent_dropped {β : Type} (env : Env β) (b : β) (w : worker) (txn : txnEvent)
    (n : Notifier) (h : txn.tableSinkState ≠ TableSinkState.sinking) :
    (onEvent env b w txn n).trace = [Effect.callback txn.Callback] ∧
    callbacks (onEvent env b w txn n).trace = [txn.Callback] ∧
    forwarded (onEvent env b w txn n).trace = [] ∧
    notified (onEvent env b w txn n).trace = [] ∧
    (onEvent env b w txn n).w.postTxnExecutedCallbacks.elems =
      w.postTxnExecutedCallbacks.elems ++ [n] ∧
    (onEvent env b w txn n).w.hasPending = true ∧
    (onEvent env b w txn n).ret = false ∧
    (onEvent env b w txn n).world = env.Callback b txn.Callback := by
  rw [onEvent_of_not_sinking env b w txn n h]
  exact ⟨rfl, rfl, rfl, rfl, Slice.append_elems _ _ _, rfl, rfl, rfl⟩

/-- The statement of C6 on a task of a stopping table, admitted with notifier 9
by a worker whose ledger is `[7, 8]`. -/
theorem onEvent_dropped_witness :
    stoppingTask.tableSinkState ≠ TableSinkState.sinking ∧
    (onEvent scripted (world0 [] none) busyWorker stoppingTask 9).trace = [Effect.callback 21] ∧
    (onEvent scripted (world0 [] none) busyWorker stoppingTask 9).w.postTxnExecutedCallbacks.elems
      = [7, 8, 9] ∧
    (onEvent scripted (world0 [] none) busyWorker stoppingTask 9).ret = false :=
  have hs : stoppingTask.tableSinkState ≠ TableSinkState.sinking := by decide
  have h := onEvent_dropped scripted (world0 [] none) busyWorker stoppingTask 9 hs
  ⟨hs, h.1, h.2.2.2.2.1, h.2.2.2.2.2.2.1⟩

/-- C7: for a task whose table is sinking, `onEvent` hands the payload to
`backend.OnTxnEvent` exactly once (after the two latency observations and the
row count) and returns the boolean the backend answered; it appends the notifier
at the end of the ledger, leaving the earlier entries as they were, sets
`hasPending`, and runs neither the completion callback nor the notifier. -/
theorem onEvent_forwarded {β : Type} (env : Env β) (b : β) (w : worker) (txn : txnEvent)
    (n : Notifier) (h : txn.tableSinkState = TableSinkState.sinking) :
    (onEvent env b w txn n).trace =
      [Effect.observeConflictDetect (timeSub txn.conflictResolved txn.start),
       Effect.observeQueue (timeSub (env.Now b).2 txn.start),
       Effect.addHandledRows txn.rows,
       Effect.onTxnEvent txn.TxnCallbackableEvent
         (env.OnTxnEvent (env.Now b).1 txn.TxnCallbackableEvent).2] ∧
    forwarded (onEvent env b w txn n).trace = [txn.TxnCallbackableEvent] ∧
    (onEvent env b w txn n).ret = (env.OnTxnEvent (env.Now b).1 txn.TxnCallbackableEvent).2 ∧
    (onEvent env b w txn n).w.postTxnExecutedCallbacks.elems =
      w.postTxnExecutedCallbacks.elems ++ [n] ∧
    (onEvent env b w txn n).w.hasPending = true ∧
    callbacks (onEvent env b w txn n).trace = [] ∧
    notified (onEvent env b w txn n).trace = [] := by
  rw [onEvent_of_sinking env b w txn n h]
  exact ⟨rfl, rfl, rfl, Slice.append_elems _ _ _, rfl, rfl, rfl⟩

/-- The statement of C7 on a task of a sinking table with payload 13, for which
the scripted backend asks for a flush. -/
theorem onEvent_forwarded_witness :
    sinkingTask.tableSinkState = TableSinkState.sinking ∧
    forwarded (onEvent scripted (world0 [] none) busyWorker sinkingTask 9).trace = [13] ∧
    (onEvent scripted (world0 [] none) busyWorker sinkingTask 9).ret = true ∧
    (onEvent scripted (world0 [] none) busyWorker sinkingTask 9).w.postTxnExecutedCallbacks.elems
      = [7, 8, 9] :=
  have h := onEvent_forwarded scripted (world0 [] none) busyWorker sinkingTask 9 rfl
  ⟨rfl, h.2.1, h.2.2.1.trans rfl, h.2.2.2.1⟩


/-! ## The loop -/

theorem admitted_append (a c : List Effect) : admitted (a ++ c) = admitted a ++ admitted c := by
  simp [admitted, List.filterMap_append]

theorem selected_append (a c : List Effect) : selected (a ++ c) = selected a ++ selected c := by
  simp [selected, List.filterMap_append]

theorem closes_append (a c : List Effect) : closes (a ++ c) = closes a ++ closes c := by
  simp [closes, List.filterMap_append]

theorem buffered_append (a c : List Effect) (acc : List Notifier) :
    buffered (a ++ c) acc = buffered c (buffered a acc) := by
  simp [buffered, List.foldl_append]

theorem inert_readers (tl : List Effect) (h : ∀ e ∈ tl, e.inert = true) :
    notified tl = [] ∧ flushCalls tl = [] ∧ closes tl = [] ∧ selected tl = [] ∧
    admitted tl = [] ∧ (∀ acc, buffered tl acc = acc) ∧ (∀ acc, Batches acc tl acc) ∧
    (∀ r, Effect.flush r ∉ tl) := by
  induction tl with
  | nil =>
    refine ⟨rfl, rfl, rfl, rfl, rfl, fun _ => rfl, fun acc => Batches.done acc, ?_⟩
    intro r hr
    cases hr
  | cons e t ih =>
    have he : e.inert = true := h e (List.mem_cons_self _ _)
    have ht := ih (fun x hx => h x (List.mem_cons_of_mem _ hx))
    obtain ⟨h1, h2, h3, h4, h5, h6, h7, h8⟩ := ht
    cases e <;> simp [Effect.inert] at he <;>
      (refine ⟨?_, ?_, ?_, ?_, ?_, ?_, ?_, ?_⟩
       · simpa [notified] using h1
       · simpa [flushCalls] using h2
       · simpa [closes] using h3
       · simpa [selected] using h4
       · simpa [admitted] using h5
       · intro acc
         simpa [buffered, bufferStep] using h6 acc
       · intro acc
         refine Batches.quiet acc _ t acc ⟨by simp, by simp⟩ ?_
         simpa [bufferStep] using h7 acc
       · intro r hr
         rcases List.mem_cons.1 hr with hr | hr
         · cases hr
         · exact h8 r hr)

theorem selectCase_spec {β : Type} (env : Env β) (b : β) (w : worker) (l : Locals)
    (ev : Event) (m : Mid β) (h : selectCase env b w l ev = some m) :
    ∃ tl, (∀ e ∈ tl, e.inert = true) ∧ m.trace = Effect.select ev :: tl ∧
      m.w.postTxnExecutedCallbacks.elems =
        w.postTxnExecutedCallbacks.elems ++ (admittedBy ev).toList ∧
      (Tidy w → Tidy m.w) := by
  cases ev with
  | ctxDone => simp [selectCase] at h
  | tick =>
    simp only [selectCase, Option.some.injEq] at h
    subst h
    exact ⟨[], by simp, rfl, by simp [admittedBy], id⟩
  | overseer now =>
    simp only [selectCase, Option.some.injEq] at h
    subst h
    exact ⟨_, by simp [Effect.inert], rfl, by simp [admittedBy], id⟩
  | txn t =>
    cases hte : t.txnEvent with
    | none =>
      simp only [selectCase, hte, Option.some.injEq] at h
      subst h
      exact ⟨[], by simp, rfl, by simp [admittedBy, hte], id⟩
    | some te =>
      simp only [selectCase, hte, Option.some.injEq] at h
      subst h
      by_cases hs : te.tableSinkState = TableSinkState.sinking
      · rw [onEvent_of_sinking env b w te _ hs]
        refine ⟨_, ?_, rfl, ?_, ?_⟩
        · simp [Effect.inert]
        · simp [admittedBy, hte, Slice.append_elems]
        · intro _ hp
          simp at hp
      · rw [onEvent_of_not_sinking env b w te _ hs]
        refine ⟨_, ?_, rfl, ?_, ?_⟩
        · simp [Effect.inert]
        · simp [admittedBy, hte, Slice.append_elems]
        · intro _ hp
          simp at hp

theorem clearedSlice_elems (s : Slice) : (clearedSlice s).elems = [] := by
  unfold clearedSlice
  split <;> rfl

/-- The three ways through `doFlush`. -/
theorem doFlush_spec {β : Type} (env : Env β) (b : β) (w : worker) (fts : Duration) :
    (w.hasPending = false ∧ (doFlush env b w fts).err = none ∧
      (doFlush env b w fts).trace = [] ∧ (doFlush env b w fts).w = w) ∨
    (∃ d, w.hasPending = true ∧ (doFlush env b w fts).err = none ∧
      (doFlush env b w fts).trace = Effect.flush none ::
        (w.postTxnExecutedCallbacks.elems.map Effect.postTxnExecuted ++
          [Effect.observeFlush d]) ∧
      (doFlush env b w fts).w.postTxnExecutedCallbacks.elems = [] ∧
      (doFlush env b w fts).w.hasPending = false) ∨
    (∃ e d, w.hasPending = true ∧ (doFlush env b w fts).err = some e ∧
      (doFlush env b w fts).trace =
        [Effect.flush (some e), Effect.log (LogMsg.flushFail e), Effect.observeFlush d] ∧
      (doFlush env b w fts).w = w) := by
  cases hp : w.hasPending with
  | false =>
    left
    rw [doFlush_of_idle env b w fts hp]
    exact ⟨rfl, rfl, rfl, rfl⟩
  | true =>
    right
    cases hf : (env.Flush (env.Now b).1).2 with
    | none =>
      left
      rw [doFlush_of_success env b w fts hp hf]
      exact ⟨_, rfl, rfl, rfl, clearedSlice_elems _, rfl⟩
    | some e =>
      right
      rw [doFlush_of_failure env b w fts e hp hf]
      exact ⟨e, _, rfl, rfl, rfl, rfl⟩

/-- The three ways through the `if needFlush` statement. -/
theorem flushIfNeeded_spec {β : Type} (env : Env β) (m : Mid β) :
    ((flushIfNeeded env m).ret = none ∧ (flushIfNeeded env m).trace = m.trace ∧
      (flushIfNeeded env m).w = m.w) ∨
    (∃ d, (flushIfNeeded env m).ret = none ∧
      (flushIfNeeded env m).trace = m.trace ++ Effect.flush none ::
        (m.w.postTxnExecutedCallbacks.elems.map Effect.postTxnExecuted ++
          [Effect.observeFlush d]) ∧
      (flushIfNeeded env m).w.postTxnExecutedCallbacks.elems = [] ∧
      (flushIfNeeded env m).w.hasPending = false) ∨
    (∃ e d, (flushIfNeeded env m).ret = some (Outcome.returned (some e)) ∧
      (flushIfNeeded env m).trace = m.trace ++
        [Effect.flush (some e), Effect.log (LogMsg.flushFail e), Effect.observeFlush d,
         Effect.log (LogMsg.exitsUnexpectly e)] ∧
      (flushIfNeeded env m).w = m.w) := by
  unfold flushIfNeeded
  cases hn : m.locals.needFlush with
  | false => left; simp
  | true =>
    simp only [if_true]
    rcases doFlush_spec env m.world m.w m.locals.flushTimeSlice with
      ⟨_, he, ht, hw⟩ | ⟨d, _, he, ht, hl, hp⟩ | ⟨e, d, _, he, ht, hw⟩
    · left
      simp only [he, ht, hw, List.append_nil, and_self]
    · right; left
      refine ⟨d, ?_⟩
      simp only [he, ht, hl, hp, and_self]
    · right; right
      refine ⟨e, d, ?_⟩
      simp only [he, ht, hw, List.cons_append, List.nil_append, and_self]

/-- The four ways through one iteration of the loop. -/
theorem loopIter_spec {β : Type} (env : Env β) (b : β) (w : worker) (l : Locals) (ev : Event) :
    (ev = Event.ctxDone ∧ (loopIter env b w l ev).ret = some (Outcome.returned none) ∧
      (loopIter env b w l ev).trace = [Effect.select ev, Effect.log LogMsg.exitsAsCanceled] ∧
      (loopIter env b w l ev).w = w) ∨
    ∃ tl, (∀ e ∈ tl, e.inert = true) ∧
      (((loopIter env b w l ev).ret = none ∧
        (loopIter env b w l ev).trace = Effect.select ev :: tl ∧
        (loopIter env b w l ev).w.postTxnExecutedCallbacks.elems =
          w.postTxnExecutedCallbacks.elems ++ (admittedBy ev).toList) ∨
       (∃ d, (loopIter env b w l ev).ret = none ∧
        (loopIter env b w l ev).trace = (Effect.select ev :: tl) ++ Effect.flush none ::
          ((w.postTxnExecutedCallbacks.elems ++ (admittedBy ev).toList).map
            Effect.postTxnExecuted ++ [Effect.observeFlush d]) ∧
        (loopIter env b w l ev).w.postTxnExecutedCallbacks.elems = []) ∨
       (∃ e d, (loopIter env b w l ev).ret = some (Outcome.returned (some e)) ∧
        (loopIter env b w l ev).trace = (Effect.select ev :: tl) ++
          [Effect.flush (some e), Effect.log (LogMsg.flushFail e), Effect.observeFlush d,
           Effect.log (LogMsg.exitsUnexpectly e)] ∧
        (loopIter env b w l ev).w.postTxnExecutedCallbacks.elems =
          w.postTxnExecutedCallbacks.elems ++ (admittedBy ev).toList)) := by
  unfold loopIter
  cases hs : selectCase env b w l ev with
  | none =>
    left
    have : ev = Event.ctxDone := by
      cases ev with
      | ctxDone => rfl
      | tick => simp [selectCase] at hs
      | overseer now => simp [selectCase] at hs
      | txn t =>
        cases hte : t.txnEvent <;> simp [selectCase, hte] at hs
    exact ⟨this, rfl, rfl, rfl⟩
  | some m =>
    right
    obtain ⟨tl, htl, hmt, hml, _⟩ := selectCase_spec env b w l ev m hs
    refine ⟨tl, htl, ?_⟩
    simp only []
    rcases flushIfNeeded_spec env m with ⟨hr, ht, hw⟩ | ⟨d, hr, ht, hl⟩ | ⟨e, d, hr, ht, hw⟩
    · left
      exact ⟨hr, by rw [ht, hmt], by rw [hw, hml]⟩
    · right; left
      exact ⟨d, hr, by rw [ht, hmt, hml], hl.1⟩
    · right; right
      exact ⟨e, d, hr, by rw [ht, hmt], by rw [hw, hml]⟩

theorem admitted_select (ev : Event) (tl : List Effect) :
    admitted (Effect.select ev :: tl) = (admittedBy ev).toList ++ admitted tl := by
  cases h : admittedBy ev <;> simp [admitted, h]

/-- One iteration keeps the books: what was notified and what is still in the
ledger make up what was in the ledger and what was admitted. -/
theorem loopIter_ledger {β : Type} (env : Env β) (b : β) (w : worker) (l : Locals)
    (ev : Event) :
    notified (loopIter env b w l ev).trace ++
        (loopIter env b w l ev).w.postTxnExecutedCallbacks.elems =
      w.postTxnExecutedCallbacks.elems ++ admitted (loopIter env b w l ev).trace := by
  rcases loopIter_spec env b w l ev with ⟨hev, _, ht, hw⟩ | ⟨tl, htl, h⟩
  · rw [ht, hw, hev]
    simp [notified, admitted, admittedBy]
  · obtain ⟨h1, _, _, _, h5, _, _, _⟩ := inert_readers tl htl
    have hn : ∀ t, notified (Effect.select ev :: t) = notified t := fun _ => rfl
    rcases h with ⟨_, ht, hl⟩ | ⟨d, _, ht, hl⟩ | ⟨e, d, _, ht, hl⟩
    · rw [ht, hl, hn, h1, admitted_select, h5]
      simp
    · rw [ht, hl, notified_append, hn, h1, notified_flushed, admitted_append,
        admitted_select, h5]
      simp [admitted]
    · rw [ht, hl, notified_append, hn, h1, admitted_append, admitted_select, h5]
      simp [admitted, notified]

theorem Batches.append {a c d : List Notifier} {t1 t2 : List Effect}
    (h1 : Batches a t1 c) (h2 : Batches c t2 d) : Batches a (t1 ++ t2) d := by
  induction h1 with
  | done acc => exact h2
  | quiet acc e tr acc2 hq _ ih => exact Batches.quiet acc e (tr ++ t2) d hq (ih h2)
  | batch acc tr acc2 _ ih =>
    have := Batches.batch acc (tr ++ t2) d (ih h2)
    simpa [List.append_assoc] using this

theorem Batches.select (acc : List Notifier) (ev : Event) :
    Batches acc [Effect.select ev] (acc ++ (admittedBy ev).toList) := by
  refine Batches.quiet acc _ [] _ ⟨by simp, by simp⟩ ?_
  cases h : admittedBy ev <;> simp [bufferStep, h] <;> exact Batches.done _

/-- The trace of one iteration is made of batches. -/
theorem loopIter_batches {β : Type} (env : Env β) (b : β) (w : worker) (l : Locals)
    (ev : Event) :
    Batches w.postTxnExecutedCallbacks.elems (loopIter env b w l ev).trace
      (loopIter env b w l ev).w.postTxnExecutedCallbacks.elems := by
  rcases loopIter_spec env b w l ev with ⟨hev, _, ht, hw⟩ | ⟨tl, htl, h⟩
  · rw [ht, hw, hev]
    refine Batches.quiet _ _ _ _ ⟨by simp, by simp⟩ ?_
    refine Batches.quiet _ _ _ _ ⟨by simp, by simp⟩ ?_
    exact Batches.done _
  · obtain ⟨_, _, _, _, _, _, h7, _⟩ := inert_readers tl htl
    have hsel : Batches w.postTxnExecutedCallbacks.elems (Effect.select ev :: tl)
        (w.postTxnExecutedCallbacks.elems ++ (admittedBy ev).toList) :=
      Batches.append (Batches.select _ ev) (h7 _)
    rcases h with ⟨_, ht, hl⟩ | ⟨d, _, ht, hl⟩ | ⟨e, d, _, ht, hl⟩
    · rw [ht, hl]
      exact hsel
    · rw [ht, hl]
      refine Batches.append hsel (Batches.batch _ _ _ ?_)
      exact Batches.quiet _ _ _ _ ⟨by simp, by simp⟩ (Batches.done _)
    · rw [ht, hl]
      refine Batches.append hsel ?_
      refine Batches.quiet _ _ _ _ ⟨by simp, by simp⟩ ?_
      refine Batches.quiet _ _ _ _ ⟨by simp, by simp⟩ ?_
      refine Batches.quiet _ _ _ _ ⟨by simp, by simp⟩ ?_
      refine Batches.quiet _ _ _ _ ⟨by simp, by simp⟩ ?_
      exact Batches.done _

theorem loop_cons_some {β : Type} (env : Env β) (b : β) (w : worker) (l : Locals) (ev : Event)
    (evs : List Event) (o : Outcome) (h : (loopIter env b w l ev).ret = some o) :
    loop env b w l (ev :: evs) =
      { world := (loopIter env b w l ev).world, w := (loopIter env b w l ev).w,
        locals := (loopIter env b w l ev).locals, trace := (loopIter env b w l ev).trace,
        ret := some o, rest := evs } := by
  simp only [loop, h]

theorem loop_cons_none {β : Type} (env : Env β) (b : β) (w : worker) (l : Locals) (ev : Event)
    (evs : List Event) (h : (loopIter env b w l ev).ret = none) :
    loop env b w l (ev :: evs) =
      { world := (loop env (loopIter env b w l ev).world (loopIter env b w l ev).w
                    (loopIter env b w l ev).locals evs).world
        w := (loop env (loopIter env b w l ev).world (loopIter env b w l ev).w
                    (loopIter env b w l ev).locals evs).w
        locals := (loop env (loopIter env b w l ev).world (loopIter env b w l ev).w
                    (loopIter env b w l ev).locals evs).locals
        trace := (loopIter env b w l ev).trace ++
                  (loop env (loopIter env b w l ev).world (loopIter env b w l ev).w
                    (loopIter env b w l ev).locals evs).trace
        ret := (loop env (loopIter env b w l ev).world (loopIter env b w l ev).w
                    (loopIter env b w l ev).locals evs).ret
        rest := (loop env (loopIter env b w l ev).world (loopIter env b w l ev).w
                    (loopIter env b w l ev).locals evs).rest } := by
  simp only [loop, h]

/-- The loop keeps the books. -/
theorem loop_ledger {β : Type} (env : Env β) (evs : List Event) :
    ∀ (b : β) (w : worker) (l : Locals),
    notified (loop env b w l evs).trace ++ (loop env b w l evs).w.postTxnExecutedCallbacks.elems =
      w.postTxnExecutedCallbacks.elems ++ admitted (loop env b w l evs).trace := by
  induction evs with
  | nil =>
    intro b w l
    simp [loop, notified, admitted]
  | cons ev evs ih =>
    intro b w l
    have hi := loopIter_ledger env b w l ev
    cases hr : (loopIter env b w l ev).ret with
    | some o =>
      rw [loop_cons_some env b w l ev evs o hr]
      exact hi
    | none =>
      rw [loop_cons_none env b w l ev evs hr]
      have h2 := ih (loopIter env b w l ev).world (loopIter env b w l ev).w
        (loopIter env b w l ev).locals
      simp only [notified_append, admitted_append, List.append_assoc]
      rw [h2, ← List.append_assoc, hi, List.append_assoc]

/-- The trace of the loop is made of batches. -/
theorem loop_batches {β : Type} (env : Env β) (evs : List Event) :
    ∀ (b : β) (w : worker) (l : Locals),
    Batches w.postTxnExecutedCallbacks.elems (loop env b w l evs).trace
      (loop env b w l evs).w.postTxnExecutedCallbacks.elems := by
  induction evs with
  | nil =>
    intro b w l
    exact Batches.done _
  | cons ev evs ih =>
    intro b w l
    have hi := loopIter_batches env b w l ev
    cases hr : (loopIter env b w l ev).ret with
    | some o =>
      rw [loop_cons_some env b w l ev evs o hr]
      exact hi
    | none =>
      rw [loop_cons_none env b w l ev evs hr]
      exact Batches.append hi (ih _ _ _)

theorem closeLog_inert (c : Option Err) : ∀ e ∈ closeLog c, e.inert = true := by
  cases c <;> simp [closeLog, Effect.inert]

/-- The three ways through `runLoop`: the ticker panics; the loop is still
waiting; the loop returned and the backend was closed. -/
theorem runLoop_spec {β : Type} (env : Env β) (b : β) (w : worker) (evs : List Event) :
    (w.flushInterval ≤ 0 ∧ (runLoop env b w evs).ret = some Outcome.panicked ∧
      (runLoop env b w evs).trace = Effect.log LogMsg.workerStarts ::
        Effect.close (env.Close b).2 :: closeLog (env.Close b).2 ∧
      (runLoop env b w evs).w = w ∧ (runLoop env b w evs).rest = evs) ∨
    (0 < w.flushInterval ∧ (loop env (env.Now b).1 w (initLocals (env.Now b).2) evs).ret = none ∧
      (runLoop env b w evs).ret = none ∧
      (runLoop env b w evs).trace = Effect.log LogMsg.workerStarts ::
        (loop env (env.Now b).1 w (initLocals (env.Now b).2) evs).trace ∧
      (runLoop env b w evs).w = (loop env (env.Now b).1 w (initLocals (env.Now b).2) evs).w ∧
      (runLoop env b w evs).world =
        (loop env (env.Now b).1 w (initLocals (env.Now b).2) evs).world ∧
      (runLoop env b w evs).locals =
        (loop env (env.Now b).1 w (initLocals (env.Now b).2) evs).locals ∧
      (runLoop env b w evs).rest =
        (loop env (env.Now b).1 w (initLocals (env.Now b).2) evs).rest) ∨
    (∃ o c, 0 < w.flushInterval ∧
      (loop env (env.Now b).1 w (initLocals (env.Now b).2) evs).ret = some o ∧
      (runLoop env b w evs).ret = some o ∧
      (runLoop env b w evs).trace = Effect.log LogMsg.workerStarts ::
        ((loop env (env.Now b).1 w (initLocals (env.Now b).2) evs).trace ++
          Effect.close c :: closeLog c) ∧
      (runLoop env b w evs).w = (loop env (env.Now b).1 w (initLocals (env.Now b).2) evs).w ∧
      (runLoop env b w evs).rest =
        (loop env (env.Now b).1 w (initLocals (env.Now b).2) evs).rest) := by
  by_cases hfi : w.flushInterval ≤ 0
  · left
    have key : runLoop env b w evs =
        { world := (env.Close b).1, w := w, locals := initLocals 0
          trace := Effect.log LogMsg.workerStarts ::
            Effect.close (env.Close b).2 :: closeLog (env.Close b).2
          ret := some Outcome.panicked, rest := evs } := by
      simp only [runLoop, if_pos hfi, deferredClose]
    rw [key]
    exact ⟨hfi, rfl, rfl, rfl, rfl⟩
  · right
    have hpos : 0 < w.flushInterval := not_le.1 hfi
    cases hr : (loop env (env.Now b).1 w (initLocals (env.Now b).2) evs).ret with
    | none =>
      left
      have key : runLoop env b w evs =
          { world := (loop env (env.Now b).1 w (initLocals (env.Now b).2) evs).world
            w := (loop env (env.Now b).1 w (initLocals (env.Now b).2) evs).w
            locals := (loop env (env.Now b).1 w (initLocals (env.Now b).2) evs).locals
            trace := Effect.log LogMsg.workerStarts ::
              (loop env (env.Now b).1 w (initLocals (env.Now b).2) evs).trace
            ret := none
            rest := (loop env (env.Now b).1 w (initLocals (env.Now b).2) evs).rest } := by
        simp only [runLoop, if_neg hfi, runFrom, hr]
      rw [key]
      exact ⟨hpos, rfl, rfl, rfl, rfl, rfl, rfl, rfl⟩
    | some o =>
      right
      have key : runLoop env b w evs =
          { world := (env.Close
              (loop env (env.Now b).1 w (initLocals (env.Now b).2) evs).world).1
            w := (loop env (env.Now b).1 w (initLocals (env.Now b).2) evs).w
            locals := (loop env (env.Now b).1 w (initLocals (env.Now b).2) evs).locals
            trace := Effect.log LogMsg.workerStarts ::
              ((loop env (env.Now b).1 w (initLocals (env.Now b).2) evs).trace ++
                Effect.close (env.Close
                  (loop env (env.Now b).1 w (initLocals (env.Now b).2) evs).world).2 ::
                closeLog (env.Close
                  (loop env (env.Now b).1 w (initLocals (env.Now b).2) evs).world).2)
            ret := some o
            rest := (loop env (env.Now b).1 w (initLocals (env.Now b).2) evs).rest } := by
        simp only [runLoop, if_neg hfi, runFrom, hr, deferredClose]
      rw [key]
      exact ⟨o, _, hpos, rfl, rfl, rfl, rfl, rfl⟩

/-- A run of `runLoop` keeps the books. -/
theorem runLoop_ledger {β : Type} (env : Env β) (b : β) (w : worker) (evs : List Event) :
    notified (runLoop env b w evs).trace ++ (runLoop env b w evs).w.postTxnExecutedCallbacks.elems =
      w.postTxnExecutedCallbacks.elems ++ admitted (runLoop env b w evs).trace := by
  have hn : ∀ t, notified (Effect.log LogMsg.workerStarts :: t) = notified t := fun _ => rfl
  have ha : ∀ t, admitted (Effect.log LogMsg.workerStarts :: t) = admitted t := fun _ => rfl
  have hnc : ∀ c t, notified (Effect.close c :: t) = notified t := fun _ _ => rfl
  have hac : ∀ c t, admitted (Effect.close c :: t) = admitted t := fun _ _ => rfl
  have hl := loop_ledger env evs (env.Now b).1 w (initLocals (env.Now b).2)
  rcases runLoop_spec env b w evs with ⟨_, _, ht, hw, _⟩ | ⟨_, _, _, ht, hw, _⟩ |
      ⟨o, c, _, _, _, ht, hw, _⟩
  · obtain ⟨h1, _, _, _, h5, _⟩ := inert_readers _ (closeLog_inert (env.Close b).2)
    rw [ht, hw, hn, ha, hnc, hac, h1, h5]
    simp
  · rw [ht, hw, hn, ha]
    exact hl
  · obtain ⟨h1, _, _, _, h5, _⟩ := inert_readers _ (closeLog_inert c)
    rw [ht, hw, hn, ha, notified_append, admitted_append, hnc, hac, h1, h5]
    simpa using hl

/-- The trace of a run of `runLoop` is made of batches. -/
theorem runLoop_batches {β : Type} (env : Env β) (b : β) (w : worker) (evs : List Event) :
    Batches w.postTxnExecutedCallbacks.elems (runLoop env b w evs).trace
      (runLoop env b w evs).w.postTxnExecutedCallbacks.elems := by
  have hq : ∀ acc c, Batches acc (Effect.close c :: closeLog c) acc := by
    intro acc c
    obtain ⟨_, _, _, _, _, _, h7, _⟩ := inert_readers _ (closeLog_inert c)
    exact Batches.quiet _ _ _ _ ⟨by simp, by simp⟩ (h7 _)
  have hl := loop_batches env evs (env.Now b).1 w (initLocals (env.Now b).2)
  rcases runLoop_spec env b w evs with ⟨_, _, ht, hw, _⟩ | ⟨_, _, _, ht, hw, _⟩ |
      ⟨o, c, _, _, _, ht, hw, _⟩
  · rw [ht, hw]
    exact Batches.quiet _ _ _ _ ⟨by simp, by simp⟩ (hq _ _)
  · rw [ht, hw]
    exact Batches.quiet _ _ _ _ ⟨by simp, by simp⟩ hl
  · rw [ht, hw]
    exact Batches.quiet _ _ _ _ ⟨by simp, by simp⟩ (Batches.append hl (hq _ _))

theorem buffered_cons (e : Effect) (tr : List Effect) (acc : List Notifier) :
    buffered (e :: tr) acc = buffered tr (bufferStep acc e) := rfl

theorem buffered_map (l acc : List Notifier) :
    buffered (l.map Effect.postTxnExecuted) acc = acc := by
  induction l with
  | nil => rfl
  | cons a t ih => rw [List.map_cons, buffered_cons]; exact ih

theorem buffered_batch (l : List Notifier) (tr : List Effect) (acc : List Notifier) :
    buffered (Effect.flush none :: (l.map Effect.postTxnExecuted ++ tr)) acc = buffered tr [] := by
  rw [buffered_cons, buffered_append, buffered_map]
  rfl

/-- A trace made of batches ends with the buffer it claims. -/
theorem Batches.buffered_eq {acc acc2 : List Notifier} {tr : List Effect}
    (h : Batches acc tr acc2) : buffered tr acc = acc2 := by
  induction h with
  | done acc => rfl
  | quiet acc e tr acc2 _ _ ih => rw [buffered_cons]; exact ih
  | batch acc tr acc2 _ ih => rw [buffered_batch]; exact ih

/-- In a trace made of batches, a successful flush is followed at once by all
the notifiers buffered at that point, and every notifier invocation belongs to
such a batch. -/
theorem Batches.split {acc acc2 : List Notifier} {tr : List Effect}
    (h : Batches acc tr acc2) :
    ∀ (pre : List Effect) (e : Effect) (post : List Effect), tr = pre ++ e :: post →
      (e = Effect.flush none →
        ∃ post2, post = (buffered pre acc).map Effect.postTxnExecuted ++ post2) ∧
      (∀ n, e = Effect.postTxnExecuted n →
        ∃ pre2 before after, buffered pre2 acc = before ++ n :: after ∧
          pre = pre2 ++ Effect.flush none :: before.map Effect.postTxnExecuted) := by
  induction h with
  | done acc =>
    intro pre e post h
    simp at h
  | quiet acc e0 tr acc2 hq _ ih =>
    intro pre e post h
    cases pre with
    | nil =>
      simp only [List.nil_append, List.cons.injEq] at h
      obtain ⟨he, _⟩ := h
      subst he
      exact ⟨fun h1 => absurd h1 hq.1, fun n h2 => absurd h2 (hq.2 n)⟩
    | cons p pre1 =>
      simp only [List.cons_append, List.cons.injEq] at h
      obtain ⟨hp, ht⟩ := h
      subst hp
      obtain ⟨i1, i2⟩ := ih pre1 e post ht
      refine ⟨fun h1 => ?_, fun n h2 => ?_⟩
      · rw [buffered_cons]
        exact i1 h1
      · obtain ⟨pre2, before, after, hb, hpre⟩ := i2 n h2
        exact ⟨e0 :: pre2, before, after, by rw [buffered_cons]; exact hb, by rw [hpre]; rfl⟩
  | batch acc tr acc2 _ ih =>
    intro pre e post h
    cases pre with
    | nil =>
      simp only [List.nil_append, List.cons.injEq] at h
      obtain ⟨he, hpost⟩ := h
      subst he
      refine ⟨fun _ => ⟨tr, hpost.symm⟩, fun n h2 => ?_⟩
      cases h2
    | cons p pre1 =>
      simp only [List.cons_append, List.cons.injEq] at h
      obtain ⟨hp, ht⟩ := h
      subst hp
      rcases List.append_eq_append_iff.1 ht with ⟨a2, hpre1, htr⟩ | ⟨c2, hmap, hc⟩
      · obtain ⟨i1, i2⟩ := ih a2 e post htr
        refine ⟨fun h1 => ?_, fun n h2 => ?_⟩
        · rw [hpre1, buffered_batch]
          exact i1 h1
        · obtain ⟨pre2, before, after, hb, hpre⟩ := i2 n h2
          refine ⟨Effect.flush none :: (acc.map Effect.postTxnExecuted ++ pre2), before, after,
            ?_, ?_⟩
          · rw [buffered_batch]
            exact hb
          · rw [hpre1, hpre]
            simp
      · cases c2 with
        | nil =>
          simp only [List.append_nil, List.nil_append] at hmap hc
          obtain ⟨i1, i2⟩ := ih [] e post hc.symm
          refine ⟨fun h1 => ?_, fun n h2 => ?_⟩
          · rw [← hmap]
            have := buffered_batch acc [] acc
            rw [List.append_nil] at this
            rw [this]
            exact i1 h1
          · obtain ⟨pre2, before, after, _, hpre⟩ := i2 n h2
            simp at hpre
        | cons x c3 =>
          simp only [List.cons_append, List.cons.injEq] at hc
          obtain ⟨hx, _⟩ := hc
          subst hx
          obtain ⟨l1, l2, hacc, hl1, hl2⟩ := List.map_eq_append_iff.1 hmap
          cases l2 with
          | nil => simp at hl2
          | cons a l3 =>
            simp only [List.map_cons, List.cons.injEq] at hl2
            obtain ⟨ha, _⟩ := hl2
            refine ⟨fun h1 => ?_, fun n h2 => ?_⟩
            · rw [h1] at ha
              cases ha
            · rw [h2] at ha
              cases ha
              exact ⟨[], l1, l3, hacc, by rw [hl1]; rfl⟩

theorem admitted_eq_selected (tr : List Effect) :
    admitted tr = (selected tr).filterMap admittedBy := by
  induction tr with
  | nil => rfl
  | cons e t ih =>
    cases e with
    | select ev =>
      have h1 : admitted (Effect.select ev :: t) = (admittedBy ev).toList ++ admitted t :=
        admitted_select ev t
      have h2 : selected (Effect.select ev :: t) = ev :: selected t := rfl
      rw [h1, h2, ih]
      cases h : admittedBy ev <;> simp [List.filterMap_cons, h]
    | _ => exact ih

/-- One iteration takes exactly the alternative it was given. -/
theorem loopIter_selected {β : Type} (env : Env β) (b : β) (w : worker) (l : Locals)
    (ev : Event) : selected (loopIter env b w l ev).trace = [ev] := by
  have hs : ∀ t, selected (Effect.select ev :: t) = ev :: selected t := fun _ => rfl
  rcases loopIter_spec env b w l ev with ⟨_, _, ht, _⟩ | ⟨tl, htl, h⟩
  · rw [ht]
    rfl
  · obtain ⟨_, _, _, h4, _⟩ := inert_readers tl htl
    rcases h with ⟨_, ht, _⟩ | ⟨d, _, ht, _⟩ | ⟨e, d, _, ht, _⟩
    · rw [ht, hs, h4]
    · rw [ht, selected_append, hs, h4]
      have hm : ∀ k : List Notifier, selected (k.map Effect.postTxnExecuted) = [] := by
        intro k
        induction k with
        | nil => rfl
        | cons a t ih => exact ih
      have hf : ∀ t, selected (Effect.flush none :: t) = selected t := fun _ => rfl
      rw [hf, selected_append, hm]
      rfl
    · rw [ht, selected_append, hs, h4]
      rfl

/-- The alternatives taken by the loop and those left over are the ones it was
run against. -/
theorem loop_selected {β : Type} (env : Env β) (evs : List Event) :
    ∀ (b : β) (w : worker) (l : Locals),
    selected (loop env b w l evs).trace ++ (loop env b w l evs).rest = evs := by
  induction evs with
  | nil =>
    intro b w l
    rfl
  | cons ev evs ih =>
    intro b w l
    have hi := loopIter_selected env b w l ev
    cases hr : (loopIter env b w l ev).ret with
    | some o =>
      rw [loop_cons_some env b w l ev evs o hr]
      simp only [hi]
      rfl
    | none =>
      rw [loop_cons_none env b w l ev evs hr]
      simp only [selected_append, hi, List.append_assoc]
      rw [ih]
      rfl

/-- The alternatives taken by `runLoop` and those left over are the ones it
was run against. -/
theorem runLoop_selected {β : Type} (env : Env β) (b : β) (w : worker) (evs : List Event) :
    selected (runLoop env b w evs).trace ++ (runLoop env b w evs).rest = evs := by
  have hs : ∀ t, selected (Effect.log LogMsg.workerStarts :: t) = selected t := fun _ => rfl
  have hc : ∀ c t, selected (Effect.close c :: t) = selected t := fun _ _ => rfl
  have hl := loop_selected env evs (env.Now b).1 w (initLocals (env.Now b).2)
  rcases runLoop_spec env b w evs with ⟨_, _, ht, _, hrest⟩ |
      ⟨_, _, _, ht, _, _, _, hrest⟩ | ⟨o, c, _, _, _, ht, _, hrest⟩
  · obtain ⟨_, _, _, h4, _⟩ := inert_readers _ (closeLog_inert (env.Close b).2)
    rw [ht, hrest, hs, hc, h4]
    rfl
  · rw [ht, hrest, hs]
    exact hl
  · obtain ⟨_, _, _, h4, _⟩ := inert_readers _ (closeLog_inert c)
    rw [ht, hrest, hs, selected_append, hc, h4, List.append_nil]
    exact hl

/-- C3: in every run of `runLoop` by a worker fresh from `newWorker`, whatever
the alternatives taken and whatever the backend answers, the notifiers invoked
so far are, in order, an initial segment of the notifiers of the tasks admitted
so far (the rest of them is the ledger), and these are an initial segment of
the notifiers of the non-nil tasks among the alternatives. -/
theorem notifier_release_order {β : Type} (env : Env β) (b0 b : β) (workerCount : Int)
    (evs : List Event) :
    notified (runLoop env b (newWorker env b0 workerCount) evs).trace ++
        (runLoop env b (newWorker env b0 workerCount) evs).w.postTxnExecutedCallbacks.elems =
      admitted (runLoop env b (newWorker env b0 workerCount) evs).trace ∧
    notified (runLoop env b (newWorker env b0 workerCount) evs).trace <+:
      admitted (runLoop env b (newWorker env b0 workerCount) evs).trace ∧
    admitted (runLoop env b (newWorker env b0 workerCount) evs).trace <+:
      evs.filterMap admittedBy := by
  have h := runLoop_ledger env b (newWorker env b0 workerCount) evs
  have h0 : (newWorker env b0 workerCount).postTxnExecutedCallbacks.elems = [] := rfl
  rw [h0, List.nil_append] at h
  refine ⟨h, ⟨_, h⟩, ?_⟩
  have hs := runLoop_selected env b (newWorker env b0 workerCount) evs
  rw [admitted_eq_selected]
  refine ⟨(runLoop env b (newWorker env b0 workerCount) evs).rest.filterMap admittedBy, ?_⟩
  rw [← List.filterMap_append, hs]

/-- C4: in every run of `runLoop` by a worker fresh from `newWorker`: each
successful call of `backend.Flush` is followed at once by the invocation of all
the notifiers admitted since the previous successful flush, in order; each
notifier invocation belongs to such a batch, so it comes after a successful
flush that itself came after the admission, and is preceded in the batch by
the notifiers admitted before it; and the ledger holds what was admitted since
the last successful flush, so a batch leaves nothing behind. -/
theorem notifiers_released_in_batches {β : Type} (env : Env β) (b0 b : β) (workerCount : Int)
    (evs : List Event) :
    (∀ pre post, (runLoop env b (newWorker env b0 workerCount) evs).trace =
        pre ++ Effect.flush none :: post →
      ∃ post2, post = (buffered pre []).map Effect.postTxnExecuted ++ post2) ∧
    (∀ pre n post, (runLoop env b (newWorker env b0 workerCount) evs).trace =
        pre ++ Effect.postTxnExecuted n :: post →
      ∃ pre2 before after, buffered pre2 [] = before ++ n :: after ∧
        pre = pre2 ++ Effect.flush none :: before.map Effect.postTxnExecuted) ∧
    (runLoop env b (newWorker env b0 workerCount) evs).w.postTxnExecutedCallbacks.elems =
      buffered (runLoop env b (newWorker env b0 workerCount) evs).trace [] := by
  have h := runLoop_batches env b (newWorker env b0 workerCount) evs
  have h0 : (newWorker env b0 workerCount).postTxnExecutedCallbacks.elems = [] := rfl
  rw [h0] at h
  refine ⟨fun pre post hsp => ?_, fun pre n post hsp => ?_, h.buffered_eq.symm⟩
  · exact (h.split pre _ post hsp).1 rfl
  · exact (h.split pre _ post hsp).2 n rfl

/-- C9: from any state of the worker and of the loop, ledger filled or not,
when the `select` takes the cancellation alternative `runLoop` returns nil in
that iteration: nothing is flushed, no notifier is invoked, the worker is left
as it was, the alternatives that follow are not taken, and the backend is
closed exactly once. -/
theorem cancellation_returns_nil {β : Type} (env : Env β) (b : β) (w : worker) (l : Locals)
    (rest : List Event) :
    (runFrom env b w l (Event.ctxDone :: rest)).ret = some (Outcome.returned none) ∧
    (runFrom env b w l (Event.ctxDone :: rest)).trace =
      [Effect.select Event.ctxDone, Effect.log LogMsg.exitsAsCanceled,
       Effect.close (env.Close b).2] ++ closeLog (env.Close b).2 ∧
    flushCalls (runFrom env b w l (Event.ctxDone :: rest)).trace = [] ∧
    notified (runFrom env b w l (Event.ctxDone :: rest)).trace = [] ∧
    closes (runFrom env b w l (Event.ctxDone :: rest)).trace = [(env.Close b).2] ∧
    (runFrom env b w l (Event.ctxDone :: rest)).w = w ∧
    (runFrom env b w l (Event.ctxDone :: rest)).rest = rest := by
  have key : runFrom env b w l (Event.ctxDone :: rest) =
      { world := (env.Close b).1, w := w, locals := l
        trace := [Effect.select Event.ctxDone, Effect.log LogMsg.exitsAsCanceled,
          Effect.close (env.Close b).2] ++ closeLog (env.Close b).2
        ret := some (Outcome.returned none), rest := rest } := by
    simp [runFrom, loop, loopIter, selectCase, deferredClose]
  rw [key]
  obtain ⟨h1, h2, h3, _⟩ := inert_readers _ (closeLog_inert (env.Close b).2)
  refine ⟨rfl, rfl, ?_, ?_, ?_, rfl, rfl⟩
  · simp only [flushCalls_append, h2]
    rfl
  · simp only [notified_append, h1]
    rfl
  · simp only [closes_append, h3]
    rfl

theorem mem_flush_iff (r : Option Err) (tr : List Effect) :
    Effect.flush r ∈ tr ↔ r ∈ flushCalls tr := by
  induction tr with
  | nil => simp [flushCalls]
  | cons e t ih =>
    cases e <;> simp [flushCalls] at ih ⊢ <;> simp [ih]

theorem closes_map (l : List Notifier) : closes (l.map Effect.postTxnExecuted) = [] := by
  induction l with
  | nil => rfl
  | cons a t ih => exact ih

/-- One iteration does not close the backend. -/
theorem loopIter_closes {β : Type} (env : Env β) (b : β) (w : worker) (l : Locals)
    (ev : Event) : closes (loopIter env b w l ev).trace = [] := by
  have hs : ∀ t, closes (Effect.select ev :: t) = closes t := fun _ => rfl
  have hf : ∀ t, closes (Effect.flush none :: t) = closes t := fun _ => rfl
  rcases loopIter_spec env b w l ev with ⟨_, _, ht, _⟩ | ⟨tl, htl, h⟩
  · rw [ht]
    rfl
  · obtain ⟨_, _, h3, _⟩ := inert_readers tl htl
    rcases h with ⟨_, ht, _⟩ | ⟨d, _, ht, _⟩ | ⟨e, d, _, ht, _⟩
    · rw [ht, hs, h3]
    · rw [ht, closes_append, hs, h3, hf, closes_append, closes_map]
      rfl
    · rw [ht, closes_append, hs, h3]
      rfl

/-- The loop does not close the backend. -/
theorem loop_closes {β : Type} (env : Env β) (evs : List Event) :
    ∀ (b : β) (w : worker) (l : Locals), closes (loop env b w l evs).trace = [] := by
  induction evs with
  | nil =>
    intro b w l
    rfl
  | cons ev evs ih =>
    intro b w l
    have hi := loopIter_closes env b w l ev
    cases hr : (loopIter env b w l ev).ret with
    | some o =>
      rw [loop_cons_some env b w l ev evs o hr]
      exact hi
    | none =>
      rw [loop_cons_none env b w l ev evs hr]
      simp only [closes_append, hi, ih, List.append_nil]

/-- The calls of `Flush` in one iteration: a failed one ends the iteration
with its error, right after the log lines and the observation. -/
theorem loopIter_flushCalls {β : Type} (env : Env β) (b : β) (w : worker) (l : Locals)
    (ev : Event) (e : Err) (h : some e ∈ flushCalls (loopIter env b w l ev).trace) :
    (loopIter env b w l ev).ret = some (Outcome.returned (some e)) ∧
    ∃ pre d, (loopIter env b w l ev).trace = pre ++
      [Effect.flush (some e), Effect.log (LogMsg.flushFail e), Effect.observeFlush d,
       Effect.log (LogMsg.exitsUnexpectly e)] := by
  have hs : ∀ t, flushCalls (Effect.select ev :: t) = flushCalls t := fun _ => rfl
  rcases loopIter_spec env b w l ev with ⟨_, _, ht, _⟩ | ⟨tl, htl, hc⟩
  · rw [ht] at h
    simp [flushCalls] at h
  · obtain ⟨_, h2, _⟩ := inert_readers tl htl
    rcases hc with ⟨_, ht, _⟩ | ⟨d, _, ht, _⟩ | ⟨e2, d, hr, ht, _⟩
    · rw [ht, hs, h2] at h
      cases h
    · rw [ht, flushCalls_append, hs, h2, flushCalls_flushed] at h
      simp at h
    · have h3 : flushCalls (loopIter env b w l ev).trace = [some e2] := by
        rw [ht, flushCalls_append, hs, h2]
        rfl
      rw [h3] at h
      simp only [List.mem_singleton, Option.some.injEq] at h
      subst h
      exact ⟨hr, _, d, ht⟩

/-- A failed flush ends the loop: the loop has returned the error of the
flush, and the trace ends with that call. -/
theorem loop_fail {β : Type} (env : Env β) (e : Err) (evs : List Event) :
    ∀ (b : β) (w : worker) (l : Locals),
    some e ∈ flushCalls (loop env b w l evs).trace →
    (loop env b w l evs).ret = some (Outcome.returned (some e)) ∧
    ∃ pre d, (loop env b w l evs).trace = pre ++
      [Effect.flush (some e), Effect.log (LogMsg.flushFail e), Effect.observeFlush d,
       Effect.log (LogMsg.exitsUnexpectly e)] := by
  induction evs with
  | nil =>
    intro b w l h
    simp [loop, flushCalls] at h
  | cons ev evs ih =>
    intro b w l h
    cases hr : (loopIter env b w l ev).ret with
    | some o =>
      rw [loop_cons_some env b w l ev evs o hr] at h ⊢
      obtain ⟨h1, h2⟩ := loopIter_flushCalls env b w l ev e h
      rw [hr] at h1
      exact ⟨h1, h2⟩
    | none =>
      rw [loop_cons_none env b w l ev evs hr] at h ⊢
      simp only [flushCalls_append, List.mem_append] at h
      rcases h with h | h
      · have := (loopIter_flushCalls env b w l ev e h).1
        rw [hr] at this
        cases this
      · obtain ⟨h1, pre, d, h2⟩ := ih _ _ _ h
        refine ⟨h1, (loopIter env b w l ev).trace ++ pre, d, ?_⟩
        simp only [h2, List.append_assoc]

/-- C8: in every run of `runLoop`, from any state of the worker, if a call of
`backend.Flush` fails with `e` then `runLoop` returns `e`; the trace ends with
that call, the two log lines, the observation of the duration and the one call
of `backend.Close`, whose result changes nothing to the error returned; so
after the failure no alternative is taken (those left are the rest of the
list) and no notifier is invoked: the notifiers buffered since the last
successful flush are still in the ledger. -/
theorem flush_failure_ends_run {β : Type} (env : Env β) (b : β) (w : worker)
    (evs : List Event) (e : Err)
    (h : Effect.flush (some e) ∈ (runLoop env b w evs).trace) :
    (runLoop env b w evs).ret = some (Outcome.returned (some e)) ∧
    (∃ pre d c, (runLoop env b w evs).trace = pre ++
        [Effect.flush (some e), Effect.log (LogMsg.flushFail e), Effect.observeFlush d,
         Effect.log (LogMsg.exitsUnexpectly e), Effect.close c] ++ closeLog c ∧
      closes pre = [] ∧
      selected pre ++ (runLoop env b w evs).rest = evs ∧
      notified pre = notified (runLoop env b w evs).trace ∧
      (runLoop env b w evs).w.postTxnExecutedCallbacks.elems =
        buffered pre w.postTxnExecutedCallbacks.elems) ∧
    (closes (runLoop env b w evs).trace).length = 1 ∧
    notified (runLoop env b w evs).trace ++
        (runLoop env b w evs).w.postTxnExecutedCallbacks.elems =
      w.postTxnExecutedCallbacks.elems ++ admitted (runLoop env b w evs).trace := by
  have hsel := runLoop_selected env b w evs
  have hbuf := (runLoop_batches env b w evs).buffered_eq
  have hled := runLoop_ledger env b w evs
  have hcl := loop_closes env evs (env.Now b).1 w (initLocals (env.Now b).2)
  rw [mem_flush_iff] at h
  have hs : ∀ t, flushCalls (Effect.log LogMsg.workerStarts :: t) = flushCalls t := fun _ => rfl
  have hc : ∀ c t, flushCalls (Effect.close c :: t) = flushCalls t := fun _ _ => rfl
  rcases runLoop_spec env b w evs with ⟨_, _, ht, _, _⟩ |
      ⟨_, hlr, _, ht, _, _, _, _⟩ | ⟨o, c, _, hlr, hret, ht, _, _⟩
  · obtain ⟨_, h2, _⟩ := inert_readers _ (closeLog_inert (env.Close b).2)
    rw [ht, hs, hc, h2] at h
    cases h
  · rw [ht, hs] at h
    have := (loop_fail env e evs _ _ _ h).1
    rw [hlr] at this
    cases this
  · obtain ⟨h1, h2, h3, h4, _, h6, _⟩ := inert_readers _ (closeLog_inert c)
    rw [ht, hs, flushCalls_append, hc, h2, List.append_nil] at h
    obtain ⟨hr, pre, d, hpre⟩ := loop_fail env e evs _ _ _ h
    rw [hlr] at hr
    have ho : o = Outcome.returned (some e) := Option.some.inj hr
    have htr : (runLoop env b w evs).trace = (Effect.log LogMsg.workerStarts :: pre) ++
        [Effect.flush (some e), Effect.log (LogMsg.flushFail e), Effect.observeFlush d,
         Effect.log (LogMsg.exitsUnexpectly e), Effect.close c] ++ closeLog c := by
      rw [ht, hpre]
      simp
    have hcp : closes (Effect.log LogMsg.workerStarts :: pre) = [] := by
      rw [hpre, closes_append] at hcl
      exact (List.append_eq_nil.1 hcl).1
    refine ⟨by rw [hret, ho], ⟨_, d, c, htr, hcp, ?_, ?_, ?_⟩, ?_, hled⟩
    · rw [htr, selected_append, selected_append, h4] at hsel
      simpa [selected] using hsel
    · rw [htr, notified_append, notified_append, h1]
      simp [notified]
    · rw [htr, buffered_append, buffered_append, h6] at hbuf
      rw [← hbuf]
      rfl
    · rw [htr, closes_append, closes_append, h3, hcp]
      rfl

/-- The statement of C4 on the run of `twoTasks`: the flush is followed by the
notifiers 1 and 2, the two admitted before it. -/
theorem notifiers_released_in_batches_witness :
    (runLoop scripted (world0 [] none) freshWorker twoTasks).trace =
      twoTasksBefore ++ Effect.flush none :: twoTasksAfter ∧
    ∃ post2, twoTasksAfter =
      (buffered twoTasksBefore []).map Effect.postTxnExecuted ++ post2 :=
  ⟨rfl, (notifiers_released_in_batches scripted (world0 [] none) (world0 [] none) 4
    twoTasks).1 twoTasksBefore twoTasksAfter rfl⟩

/-- The statement of C8 on the run of `taskThenTick` against a backend whose
flush fails with error 5 and whose close fails with error 9: the run returns
error 5 and the backend is closed once. -/
theorem flush_failure_ends_run_witness :
    Effect.flush (some 5) ∈ (runLoop scripted (world0 [some 5] (some 9)) freshWorker
      taskThenTick).trace ∧
    (runLoop scripted (world0 [some 5] (some 9)) freshWorker taskThenTick).ret =
      some (Outcome.returned (some 5)) ∧
    (closes (runLoop scripted (world0 [some 5] (some 9)) freshWorker taskThenTick).trace).length
      = 1 :=
  have hm : Effect.flush (some 5) ∈ (runLoop scripted (world0 [some 5] (some 9)) freshWorker
      taskThenTick).trace := by decide
  have h := flush_failure_ends_run scripted (world0 [some 5] (some 9)) freshWorker
    taskThenTick 5 hm
  ⟨hm, h.1, h.2.2.1⟩

/-- The invariant of sequences of calls: the ledger is the record of what was
admitted since the last successful flush, and `hasPending` tells whether it is
empty. -/
theorem callStep_invariant {β : Type} (env : Env β) (s : CallsRes β) (c : Call)
    (h : s.w.postTxnExecutedCallbacks.elems = s.sinceFlush ∧
      (s.w.hasPending = true ↔ s.sinceFlush ≠ [])) :
    (callStep env s c).w.postTxnExecutedCallbacks.elems = (callStep env s c).sinceFlush ∧
    ((callStep env s c).w.hasPending = true ↔ (callStep env s c).sinceFlush ≠ []) := by
  obtain ⟨h1, h2⟩ := h
  cases c with
  | onEvent txn n =>
    have hl : (onEvent env s.world s.w txn n).w.postTxnExecutedCallbacks.elems =
        s.w.postTxnExecutedCallbacks.elems ++ [n] := by
      by_cases hs : txn.tableSinkState = TableSinkState.sinking
      · rw [onEvent_of_sinking env s.world s.w txn n hs]
        exact Slice.append_elems _ _ _
      · rw [onEvent_of_not_sinking env s.world s.w txn n hs]
        exact Slice.append_elems _ _ _
    have hp : (onEvent env s.world s.w txn n).w.hasPending = true := by
      by_cases hs : txn.tableSinkState = TableSinkState.sinking
      · rw [onEvent_of_sinking env s.world s.w txn n hs]
      · rw [onEvent_of_not_sinking env s.world s.w txn n hs]
    show (onEvent env s.world s.w txn n).w.postTxnExecutedCallbacks.elems = s.sinceFlush ++ [n] ∧
      ((onEvent env s.world s.w txn n).w.hasPending = true ↔ s.sinceFlush ++ [n] ≠ [])
    rw [hl, hp, h1]
    simp
  | doFlush =>
    show (doFlush env s.world s.w s.flushTimeSlice).w.postTxnExecutedCallbacks.elems =
        (if none ∈ flushCalls (doFlush env s.world s.w s.flushTimeSlice).trace then []
          else s.sinceFlush) ∧
      ((doFlush env s.world s.w s.flushTimeSlice).w.hasPending = true ↔
        (if none ∈ flushCalls (doFlush env s.world s.w s.flushTimeSlice).trace then []
          else s.sinceFlush) ≠ [])
    rcases doFlush_spec env s.world s.w s.flushTimeSlice with
      ⟨_, _, ht, hw⟩ | ⟨d, _, _, ht, hl, hp⟩ | ⟨e, d, _, _, ht, hw⟩
    · rw [ht, hw]
      simpa [flushCalls] using ⟨h1, h2⟩
    · rw [ht, hl, hp, flushCalls_flushed]
      simp
    · rw [ht, hw]
      simpa [flushCalls] using ⟨h1, h2⟩

theorem foldl_callStep_invariant {β : Type} (env : Env β) (cs : List Call) :
    ∀ s : CallsRes β,
      (s.w.postTxnExecutedCallbacks.elems = s.sinceFlush ∧
        (s.w.hasPending = true ↔ s.sinceFlush ≠ [])) →
      ((cs.foldl (callStep env) s).w.postTxnExecutedCallbacks.elems =
          (cs.foldl (callStep env) s).sinceFlush ∧
        ((cs.foldl (callStep env) s).w.hasPending = true ↔
          (cs.foldl (callStep env) s).sinceFlush ≠ [])) := by
  induction cs with
  | nil => exact fun s h => h
  | cons c cs ih => exact fun s h => ih _ (callStep_invariant env s c h)

/-- C11: after any sequence of calls of `onEvent` and `doFlush` on a worker
fresh from `newWorker`, whatever the flushes answered: `hasPending` is true
exactly when a task was admitted since the last successful flush, which is
exactly when the ledger is not empty (the ledger is the list of the notifiers
admitted since then); and when nothing was admitted since the last successful
flush, a further call of `doFlush` does not call `backend.Flush`. -/
theorem hasPending_iff_admitted {β : Type} (env : Env β) (b0 b : β) (workerCount : Int)
    (cs : List Call) :
    ((calls env b0 b workerCount cs).w.hasPending = true ↔
      (calls env b0 b workerCount cs).sinceFlush ≠ []) ∧
    ((calls env b0 b workerCount cs).sinceFlush ≠ [] ↔
      (calls env b0 b workerCount cs).w.postTxnExecutedCallbacks.elems ≠ []) ∧
    (calls env b0 b workerCount cs).w.postTxnExecutedCallbacks.elems =
      (calls env b0 b workerCount cs).sinceFlush ∧
    ((calls env b0 b workerCount cs).sinceFlush = [] →
      flushCalls (calls env b0 b workerCount (cs ++ [Call.doFlush])).trace =
        flushCalls (calls env b0 b workerCount cs).trace) := by
  have h : (calls env b0 b workerCount cs).w.postTxnExecutedCallbacks.elems =
        (calls env b0 b workerCount cs).sinceFlush ∧
      ((calls env b0 b workerCount cs).w.hasPending = true ↔
        (calls env b0 b workerCount cs).sinceFlush ≠ []) :=
    foldl_callStep_invariant env cs
      { world := b, w := newWorker env b0 workerCount, flushTimeSlice := 0, trace := [],
        sinceFlush := [] } ⟨rfl, by simp [newWorker]⟩
  obtain ⟨h1, h2⟩ := h
  refine ⟨h2, by rw [h1], h1, fun hs => ?_⟩
  have hp : (calls env b0 b workerCount cs).w.hasPending = false := by
    cases hb : (calls env b0 b workerCount cs).w.hasPending with
    | false => rfl
    | true => exact absurd hs (h2.1 hb)
  have hstep : calls env b0 b workerCount (cs ++ [Call.doFlush]) =
      callStep env (calls env b0 b workerCount cs) Call.doFlush := by
    simp [calls, List.foldl_append]
  rw [hstep]
  show flushCalls ((calls env b0 b workerCount cs).trace ++
      (doFlush env (calls env b0 b workerCount cs).world (calls env b0 b workerCount cs).w
        (calls env b0 b workerCount cs).flushTimeSlice).trace) = _
  rw [doFlush_of_idle env _ _ _ hp, List.append_nil]

/-- A loop that has not returned goes on with the alternatives that follow. -/
theorem loop_append {β : Type} (env : Env β) (more : List Event) (evs : List Event) :
    ∀ (b : β) (w : worker) (l : Locals), (loop env b w l evs).ret = none →
    loop env b w l (evs ++ more) =
      { world := (loop env (loop env b w l evs).world (loop env b w l evs).w
                    (loop env b w l evs).locals more).world
        w := (loop env (loop env b w l evs).world (loop env b w l evs).w
                    (loop env b w l evs).locals more).w
        locals := (loop env (loop env b w l evs).world (loop env b w l evs).w
                    (loop env b w l evs).locals more).locals
        trace := (loop env b w l evs).trace ++
                  (loop env (loop env b w l evs).world (loop env b w l evs).w
                    (loop env b w l evs).locals more).trace
        ret := (loop env (loop env b w l evs).world (loop env b w l evs).w
                    (loop env b w l evs).locals more).ret
        rest := (loop env (loop env b w l evs).world (loop env b w l evs).w
                    (loop env b w l evs).locals more).rest } := by
  induction evs with
  | nil =>
    intro b w l _
    rfl
  | cons e0 evs ih =>
    intro b w l hr
    cases hi : (loopIter env b w l e0).ret with
    | some o =>
      rw [loop_cons_some env b w l e0 evs o hi] at hr
      cases hr
    | none =>
      rw [loop_cons_none env b w l e0 evs hi] at hr
      rw [List.cons_append, loop_cons_none env b w l e0 (evs ++ more) hi,
        ih _ _ _ hr, loop_cons_none env b w l e0 evs hi]
      simp only [List.append_assoc]

/-- The loop run against one alternative is that iteration. -/
theorem loop_single {β : Type} (env : Env β) (b : β) (w : worker) (l : Locals) (ev : Event) :
    (loop env b w l [ev]).world = (loopIter env b w l ev).world ∧
    (loop env b w l [ev]).w = (loopIter env b w l ev).w ∧
    (loop env b w l [ev]).locals = (loopIter env b w l ev).locals ∧
    (loop env b w l [ev]).trace = (loopIter env b w l ev).trace ∧
    (loop env b w l [ev]).ret = (loopIter env b w l ev).ret ∧
    (loop env b w l [ev]).rest = [] := by
  cases hi : (loopIter env b w l ev).ret with
  | some o =>
    rw [loop_cons_some env b w l ev [] o hi]
    exact ⟨rfl, rfl, rfl, rfl, rfl, rfl⟩
  | none =>
    rw [loop_cons_none env b w l ev [] hi]
    exact ⟨rfl, rfl, rfl, List.append_nil _, rfl, rfl⟩

/-- A run of `runLoop` that has not returned, given one more alternative,
performs one iteration from the state it is in; when that iteration returns,
the deferred close follows. -/
theorem runLoop_snoc {β : Type} (env : Env β) (b : β) (w : worker) (evs : List Event)
    (ev : Event) (hr : (runLoop env b w evs).ret = none) :
    (runLoop env b w (evs ++ [ev])).w =
      (loopIter env (runLoop env b w evs).world (runLoop env b w evs).w
        (runLoop env b w evs).locals ev).w ∧
    (runLoop env b w (evs ++ [ev])).locals =
      (loopIter env (runLoop env b w evs).world (runLoop env b w evs).w
        (runLoop env b w evs).locals ev).locals ∧
    (runLoop env b w (evs ++ [ev])).ret =
      (loopIter env (runLoop env b w evs).world (runLoop env b w evs).w
        (runLoop env b w evs).locals ev).ret ∧
    ((loopIter env (runLoop env b w evs).world (runLoop env b w evs).w
        (runLoop env b w evs).locals ev).ret = none →
      (runLoop env b w (evs ++ [ev])).world =
          (loopIter env (runLoop env b w evs).world (runLoop env b w evs).w
            (runLoop env b w evs).locals ev).world ∧
      (runLoop env b w (evs ++ [ev])).trace = (runLoop env b w evs).trace ++
          (loopIter env (runLoop env b w evs).world (runLoop env b w evs).w
            (runLoop env b w evs).locals ev).trace) ∧
    (∀ o, (loopIter env (runLoop env b w evs).world (runLoop env b w evs).w
        (runLoop env b w evs).locals ev).ret = some o →
      ∃ c, (runLoop env b w (evs ++ [ev])).trace = (runLoop env b w evs).trace ++
          (loopIter env (runLoop env b w evs).world (runLoop env b w evs).w
            (runLoop env b w evs).locals ev).trace ++ Effect.close c :: closeLog c) := by
  rcases runLoop_spec env b w evs with ⟨_, hp, _⟩ |
      ⟨hpos, hlr, _, ht, hw, hwd, hloc, _⟩ | ⟨o, c, _, _, hret, _⟩
  · rw [hp] at hr
    cases hr
  · rw [hw, hwd, hloc, ht]
    have happ := loop_append env [ev] evs (env.Now b).1 w (initLocals (env.Now b).2) hlr
    obtain ⟨s1, s2, s3, s4, s5, _⟩ := loop_single env
      (loop env (env.Now b).1 w (initLocals (env.Now b).2) evs).world
      (loop env (env.Now b).1 w (initLocals (env.Now b).2) evs).w
      (loop env (env.Now b).1 w (initLocals (env.Now b).2) evs).locals ev
    rcases runLoop_spec env b w (evs ++ [ev]) with ⟨hneg, _⟩ |
        ⟨_, hlr2, hret2, ht2, hw2, hwd2, hloc2, _⟩ | ⟨o, c, _, hlr2, hret2, ht2, hw2, _⟩
    · exact absurd hpos (not_lt.2 hneg)
    · rw [happ] at hlr2 hw2 hwd2 hloc2 ht2
      simp only [] at hlr2 hw2 hwd2 hloc2 ht2
      rw [s5] at hlr2
      refine ⟨by rw [hw2, s2], by rw [hloc2, s3], by rw [hret2, hlr2], fun _ => ?_, fun o ho => ?_⟩
      · exact ⟨by rw [hwd2, s1], by rw [ht2, s4]; rfl⟩
      · rw [hlr2] at ho
        cases ho
    · rw [happ] at hlr2 hw2 ht2
      simp only [] at hlr2 hw2 ht2
      rw [s5] at hlr2
      refine ⟨by rw [hw2, s2], ?_, by rw [hret2, hlr2], fun hn => ?_, fun o2 _ => ?_⟩
      · rcases runLoop_spec env b w (evs ++ [ev]) with ⟨hneg, _⟩ |
          ⟨_, hlr3, _⟩ | ⟨o3, c3, _, _, _, _, _, _⟩
        · exact absurd hpos (not_lt.2 hneg)
        · rw [happ] at hlr3
          simp only [] at hlr3
          rw [s5, hlr2] at hlr3
          cases hlr3
        · have hl : (runLoop env b w (evs ++ [ev])).locals =
              (loop env (env.Now b).1 w (initLocals (env.Now b).2) (evs ++ [ev])).locals := by
            have hfi : ¬ w.flushInterval ≤ 0 := not_le.2 hpos
            simp only [runLoop, if_neg hfi, runFrom]
            split <;> rfl
          rw [hl, happ]
          exact s3
      · rw [hn] at hlr2
        cases hlr2
      · refine ⟨c, ?_⟩
        rw [ht2, s4]
        simp
  · rw [hret] at hr
    cases hr

theorem flushIfNeeded_needFlush {β : Type} (env : Env β) (m : Mid β)
    (hr : (flushIfNeeded env m).ret = none) : (flushIfNeeded env m).locals.needFlush = false := by
  unfold flushIfNeeded at hr ⊢
  cases hn : m.locals.needFlush with
  | false => simp [hn]
  | true =>
    simp only [hn, if_true] at hr ⊢
    cases he : (doFlush env m.world m.w m.locals.flushTimeSlice).err with
    | none => simp only [he]
    | some e =>
      simp only [he] at hr
      cases hr

/-- An iteration after which the loop goes on leaves `needFlush` false. -/
theorem loopIter_needFlush {β : Type} (env : Env β) (b : β) (w : worker) (l : Locals)
    (ev : Event) (hr : (loopIter env b w l ev).ret = none) :
    (loopIter env b w l ev).locals.needFlush = false := by
  unfold loopIter at hr ⊢
  cases hs : selectCase env b w l ev with
  | none =>
    simp only [hs] at hr
    cases hr
  | some m =>
    simp only [hs] at hr ⊢
    exact flushIfNeeded_needFlush env m hr

/-- While the loop goes on, `needFlush` is false between iterations. -/
theorem loop_needFlush {β : Type} (env : Env β) (evs : List Event) :
    ∀ (b : β) (w : worker) (l : Locals), l.needFlush = false →
    (loop env b w l evs).ret = none → (loop env b w l evs).locals.needFlush = false := by
  induction evs with
  | nil => exact fun b w l hl _ => hl
  | cons e0 evs ih =>
    intro b w l _ hr
    cases hi : (loopIter env b w l e0).ret with
    | some o =>
      rw [loop_cons_some env b w l e0 evs o hi] at hr
      cases hr
    | none =>
      rw [loop_cons_none env b w l e0 evs hi] at hr ⊢
      exact ih _ _ _ (loopIter_needFlush env b w l e0 hi) hr

theorem runLoop_needFlush {β : Type} (env : Env β) (b : β) (w : worker) (evs : List Event)
    (hr : (runLoop env b w evs).ret = none) : (runLoop env b w evs).locals.needFlush = false := by
  rcases runLoop_spec env b w evs with ⟨_, hp, _⟩ |
      ⟨_, hlr, _, _, _, _, hloc, _⟩ | ⟨o, c, _, _, hret, _⟩
  · rw [hp] at hr
    cases hr
  · rw [hloc]
    exact loop_needFlush env evs _ _ _ rfl hlr
  · rw [hret] at hr
    cases hr

/-- Entered with `needFlush` false, the `select` statement leaves it set
exactly for the alternatives that trigger a flush. -/
theorem selectCase_needFlush_eq {β : Type} (env : Env β) (b : β) (w : worker) (l : Locals)
    (ev : Event) (m : Mid β) (hl : l.needFlush = false)
    (h : selectCase env b w l ev = some m) :
    m.locals.needFlush = triggersFlush env b w ev := by
  cases ev with
  | ctxDone => simp [selectCase] at h
  | tick =>
    simp only [selectCase, Option.some.injEq] at h
    subst h
    rfl
  | overseer now =>
    simp only [selectCase, Option.some.injEq] at h
    subst h
    exact hl
  | txn t =>
    cases hte : t.txnEvent with
    | none =>
      simp only [selectCase, hte, Option.some.injEq] at h
      subst h
      simpa [triggersFlush, hte] using hl
    | some te =>
      simp only [selectCase, hte, Option.some.injEq] at h
      subst h
      simp [triggersFlush, hte]

/-- The `if needFlush` statement when the flag is set: one call of `doFlush`. -/
theorem flushIfNeeded_of_set {β : Type} (env : Env β) (m : Mid β)
    (hn : m.locals.needFlush = true) :
    (flushIfNeeded env m).world = (doFlush env m.world m.w m.locals.flushTimeSlice).world ∧
    (flushIfNeeded env m).w = (doFlush env m.world m.w m.locals.flushTimeSlice).w ∧
    (flushIfNeeded env m).locals.flushTimeSlice =
      (doFlush env m.world m.w m.locals.flushTimeSlice).flushTimeSlice ∧
    (flushIfNeeded env m).trace = m.trace ++
      ((doFlush env m.world m.w m.locals.flushTimeSlice).trace ++
        exitLog (doFlush env m.world m.w m.locals.flushTimeSlice).err) ∧
    (flushIfNeeded env m).ret = exitWith (doFlush env m.world m.w m.locals.flushTimeSlice).err := by
  unfold flushIfNeeded
  simp only [hn, if_true]
  cases he : (doFlush env m.world m.w m.locals.flushTimeSlice).err with
  | none => simp [exitLog, exitWith]
  | some e => simp [exitLog, exitWith]

/-- The `if needFlush` statement when the flag is not set: nothing. -/
theorem flushIfNeeded_of_unset {β : Type} (env : Env β) (m : Mid β)
    (hn : m.locals.needFlush = false) :
    flushIfNeeded env m =
      { world := m.world, w := m.w, locals := m.locals, trace := m.trace, ret := none } := by
  unfold flushIfNeeded
  simp [hn]

/-- C12: while `runLoop` has not returned, `needFlush` is false when an
iteration starts; and an iteration whose `select` does not take the
cancellation alternative is the `select` statement followed by exactly one call
of `doFlush` when the alternative is a flush interval tick or the admission of
a task for which `onEvent` returned true, and the `select` statement alone
otherwise, as for an overseer tick, a nil item or an admission for which
`onEvent` returned false. -/
theorem doFlush_iff_triggered {β : Type} (env : Env β) (b : β) (w : worker)
    (evs : List Event) (ev : Event) (m : Mid β)
    (hr : (runLoop env b w evs).ret = none)
    (hs : selectCase env (runLoop env b w evs).world (runLoop env b w evs).w
      (runLoop env b w evs).locals ev = some m) :
    (runLoop env b w evs).locals.needFlush = false ∧
    (runLoop env b w (evs ++ [ev])).w =
      (loopIter env (runLoop env b w evs).world (runLoop env b w evs).w
        (runLoop env b w evs).locals ev).w ∧
    (runLoop env b w (evs ++ [ev])).ret =
      (loopIter env (runLoop env b w evs).world (runLoop env b w evs).w
        (runLoop env b w evs).locals ev).ret ∧
    m.locals.needFlush =
      triggersFlush env (runLoop env b w evs).world (runLoop env b w evs).w ev ∧
    (triggersFlush env (runLoop env b w evs).world (runLoop env b w evs).w ev = true →
      (loopIter env (runLoop env b w evs).world (runLoop env b w evs).w
          (runLoop env b w evs).locals ev).world =
        (doFlush env m.world m.w m.locals.flushTimeSlice).world ∧
      (loopIter env (runLoop env b w evs).world (runLoop env b w evs).w
          (runLoop env b w evs).locals ev).w =
        (doFlush env m.world m.w m.locals.flushTimeSlice).w ∧
      (loopIter env (runLoop env b w evs).world (runLoop env b w evs).w
          (runLoop env b w evs).locals ev).locals.flushTimeSlice =
        (doFlush env m.world m.w m.locals.flushTimeSlice).flushTimeSlice ∧
      (loopIter env (runLoop env b w evs).world (runLoop env b w evs).w
          (runLoop env b w evs).locals ev).trace =
        m.trace ++ ((doFlush env m.world m.w m.locals.flushTimeSlice).trace ++
          exitLog (doFlush env m.world m.w m.locals.flushTimeSlice).err) ∧
      (loopIter env (runLoop env b w evs).world (runLoop env b w evs).w
          (runLoop env b w evs).locals ev).ret =
        exitWith (doFlush env m.world m.w m.locals.flushTimeSlice).err) ∧
    (triggersFlush env (runLoop env b w evs).world (runLoop env b w evs).w ev = false →
      loopIter env (runLoop env b w evs).world (runLoop env b w evs).w
          (runLoop env b w evs).locals ev =
        { world := m.world, w := m.w, locals := m.locals, trace := m.trace, ret := none }) ∧
    triggersFlush env (runLoop env b w evs).world (runLoop env b w evs).w Event.tick = true ∧
    (∀ now, triggersFlush env (runLoop env b w evs).world (runLoop env b w evs).w
      (Event.overseer now) = false) ∧
    (∀ n, triggersFlush env (runLoop env b w evs).world (runLoop env b w evs).w
      (Event.txn { txnEvent := none, postTxnExecuted := n }) = false) ∧
    (∀ te n, triggersFlush env (runLoop env b w evs).world (runLoop env b w evs).w
      (Event.txn { txnEvent := some te, postTxnExecuted := n }) =
        (onEvent env (runLoop env b w evs).world (runLoop env b w evs).w te n).ret) := by
  have hnf := runLoop_needFlush env b w evs hr
  obtain ⟨s1, _, s3, _, _⟩ := runLoop_snoc env b w evs ev hr
  have hm := selectCase_needFlush_eq env _ _ _ ev m hnf hs
  have hit : loopIter env (runLoop env b w evs).world (runLoop env b w evs).w
      (runLoop env b w evs).locals ev = flushIfNeeded env m := by
    unfold loopIter
    simp only [hs]
  refine ⟨hnf, s1, s3, hm, fun ht => ?_, fun hf => ?_, rfl, fun _ => rfl, fun _ => rfl,
    fun _ _ => rfl⟩
  · rw [hit]
    exact flushIfNeeded_of_set env m (hm.trans ht)
  · rw [hit]
    exact flushIfNeeded_of_unset env m (hm.trans hf)

/-- The run of a worker fresh from `newWorker` against the admission of one
task on a table that is not sinking. -/
theorem runLoop_dropped_task {β : Type} (env : Env β) (b0 b : β) (workerCount : Int)
    (te : txnEvent) (n : Notifier) (hpos : 0 < env.MaxFlushInterval b0)
    (hs : te.tableSinkState ≠ TableSinkState.sinking) :
    (runLoop env b (newWorker env b0 workerCount)
      [Event.txn { txnEvent := some te, postTxnExecuted := n }]).ret = none ∧
    (runLoop env b (newWorker env b0 workerCount)
      [Event.txn { txnEvent := some te, postTxnExecuted := n }]).trace =
      [Effect.log LogMsg.workerStarts,
       Effect.select (Event.txn { txnEvent := some te, postTxnExecuted := n }),
       Effect.callback te.Callback] ∧
    (runLoop env b (newWorker env b0 workerCount)
      [Event.txn { txnEvent := some te, postTxnExecuted := n }]).world =
      env.Callback (env.Now b).1 te.Callback ∧
    (runLoop env b (newWorker env b0 workerCount)
      [Event.txn { txnEvent := some te, postTxnExecuted := n }]).w.hasPending = true ∧
    (runLoop env b (newWorker env b0 workerCount)
      [Event.txn { txnEvent := some te, postTxnExecuted := n }]).w.postTxnExecutedCallbacks.elems
      = [n] := by
  have hfi : ¬ (newWorker env b0 workerCount).flushInterval ≤ 0 := not_le.2 hpos
  have he := onEvent_of_not_sinking env (env.Now b).1 (newWorker env b0 workerCount) te n hs
  have key : loopIter env (env.Now b).1 (newWorker env b0 workerCount) (initLocals (env.Now b).2)
      (Event.txn { txnEvent := some te, postTxnExecuted := n }) =
      { world := env.Callback (env.Now b).1 te.Callback
        w := { newWorker env b0 workerCount with
                 hasPending := true
                 postTxnExecutedCallbacks :=
                   (newWorker env b0 workerCount).postTxnExecutedCallbacks.append env.growCap n }
        locals := initLocals (env.Now b).2
        trace := [Effect.select (Event.txn { txnEvent := some te, postTxnExecuted := n }),
                  Effect.callback te.Callback]
        ret := none } := by
    simp only [loopIter, selectCase, he, flushIfNeeded]
    simp [initLocals]
  have hl := loop_single env (env.Now b).1 (newWorker env b0 workerCount)
    (initLocals (env.Now b).2) (Event.txn { txnEvent := some te, postTxnExecuted := n })
  rw [key] at hl
  obtain ⟨l1, l2, _, l4, l5, _⟩ := hl
  rcases runLoop_spec env b (newWorker env b0 workerCount)
      [Event.txn { txnEvent := some te, postTxnExecuted := n }] with
    ⟨hneg, _⟩ | ⟨_, _, hret, ht, hw, hwd, _⟩ | ⟨o, c, _, hlr, _⟩
  · exact absurd hneg hfi
  · rw [hret, ht, hw, hwd, l1, l2, l4]
    refine ⟨rfl, rfl, rfl, rfl, ?_⟩
    show ((newWorker env b0 workerCount).postTxnExecutedCallbacks.append env.growCap n).elems = [n]
    rw [Slice.append_elems]
    rfl
  · rw [l5] at hlr
    cases hlr

/-- The iteration for a flush interval tick: the `select` and one call of
`doFlush`. -/
theorem loopIter_tick {β : Type} (env : Env β) (b : β) (w : worker) (l : Locals) :
    (loopIter env b w l Event.tick).w = (doFlush env b w l.flushTimeSlice).w ∧
    (loopIter env b w l Event.tick).trace = Effect.select Event.tick ::
      ((doFlush env b w l.flushTimeSlice).trace ++ exitLog (doFlush env b w l.flushTimeSlice).err) ∧
    (loopIter env b w l Event.tick).ret = exitWith (doFlush env b w l.flushTimeSlice).err := by
  have h : loopIter env b w l Event.tick = flushIfNeeded env
      { world := b, w := w, locals := { l with needFlush := true },
        trace := [Effect.select Event.tick] } := by
    simp only [loopIter, selectCase]
  rw [h]
  obtain ⟨_, h2, _, h4, h5⟩ := flushIfNeeded_of_set env
    { world := b, w := w, locals := { l with needFlush := true },
      trace := [Effect.select Event.tick] } rfl
  exact ⟨h2, h4, h5⟩

/-- C15: a worker fresh from `newWorker` admits one task on a table that is not
sinking and then handles one flush interval tick.  In the admission iteration
the completion callback of the task runs and nothing else happens: no flush, no
notifier.  On the tick `backend.Flush` is called exactly once, although nothing
was handed to the backend; when it succeeds the notifier of the task is invoked
right after it, once, and when it fails no notifier is invoked and the loop
returns the error. -/
theorem dropped_task_notified_at_tick {β : Type} (env : Env β) (b0 b : β) (workerCount : Int)
    (te : txnEvent) (n : Notifier) (hpos : 0 < env.MaxFlushInterval b0)
    (hs : te.tableSinkState ≠ TableSinkState.sinking) :
    (runLoop env b (newWorker env b0 workerCount)
      [Event.txn { txnEvent := some te, postTxnExecuted := n }]).ret = none ∧
    (runLoop env b (newWorker env b0 workerCount)
      [Event.txn { txnEvent := some te, postTxnExecuted := n }]).trace =
      [Effect.log LogMsg.workerStarts,
       Effect.select (Event.txn { txnEvent := some te, postTxnExecuted := n }),
       Effect.callback te.Callback] ∧
    forwarded (runLoop env b (newWorker env b0 workerCount)
      ([Event.txn { txnEvent := some te, postTxnExecuted := n }] ++ [Event.tick])).trace = [] ∧
    flushCalls (runLoop env b (newWorker env b0 workerCount)
      ([Event.txn { txnEvent := some te, postTxnExecuted := n }] ++ [Event.tick])).trace =
      [(env.Flush (env.Now (env.Callback (env.Now b).1 te.Callback)).1).2] ∧
    ((env.Flush (env.Now (env.Callback (env.Now b).1 te.Callback)).1).2 = none →
      (runLoop env b (newWorker env b0 workerCount)
        ([Event.txn { txnEvent := some te, postTxnExecuted := n }] ++ [Event.tick])).ret = none ∧
      ∃ d, (runLoop env b (newWorker env b0 workerCount)
        ([Event.txn { txnEvent := some te, postTxnExecuted := n }] ++ [Event.tick])).trace =
        [Effect.log LogMsg.workerStarts,
         Effect.select (Event.txn { txnEvent := some te, postTxnExecuted := n }),
         Effect.callback te.Callback,
         Effect.select Event.tick, Effect.flush none, Effect.postTxnExecuted n,
         Effect.observeFlush d]) ∧
    (∀ e, (env.Flush (env.Now (env.Callback (env.Now b).1 te.Callback)).1).2 = some e →
      (runLoop env b (newWorker env b0 workerCount)
        ([Event.txn { txnEvent := some te, postTxnExecuted := n }] ++ [Event.tick])).ret =
        some (Outcome.returned (some e)) ∧
      notified (runLoop env b (newWorker env b0 workerCount)
        ([Event.txn { txnEvent := some te, postTxnExecuted := n }] ++ [Event.tick])).trace =
        []) := by
  obtain ⟨r1, r2, r3, r4, r5⟩ := runLoop_dropped_task env b0 b workerCount te n hpos hs
  obtain ⟨_, _, s3, s4, s5⟩ := runLoop_snoc env b (newWorker env b0 workerCount)
    [Event.txn { txnEvent := some te, postTxnExecuted := n }] Event.tick r1
  obtain ⟨_, i2, i3⟩ := loopIter_tick env
    (runLoop env b (newWorker env b0 workerCount)
      [Event.txn { txnEvent := some te, postTxnExecuted := n }]).world
    (runLoop env b (newWorker env b0 workerCount)
      [Event.txn { txnEvent := some te, postTxnExecuted := n }]).w
    (runLoop env b (newWorker env b0 workerCount)
      [Event.txn { txnEvent := some te, postTxnExecuted := n }]).locals
  rw [i2, i3] at s4 s5
  rw [i3] at s3
  rw [r2] at s4 s5
  cases hf : (env.Flush (env.Now (env.Callback (env.Now b).1 te.Callback)).1).2 with
  | none =>
    have hf2 : (env.Flush (env.Now (runLoop env b (newWorker env b0 workerCount)
        [Event.txn { txnEvent := some te, postTxnExecuted := n }]).world).1).2 = none := by
      rw [r3]
      exact hf
    have hd := doFlush_of_success env _ _
      (runLoop env b (newWorker env b0 workerCount)
        [Event.txn { txnEvent := some te, postTxnExecuted := n }]).locals.flushTimeSlice r4 hf2
    rw [hd, r5] at s3 s4
    have htr := (s4 rfl).2
    refine ⟨r1, r2, ?_, ?_, fun _ => ⟨s3, _, htr.trans rfl⟩, fun e he => by cases he⟩
    · rw [htr]
      rfl
    · rw [htr]
      rfl
  | some e =>
    have hf2 : (env.Flush (env.Now (runLoop env b (newWorker env b0 workerCount)
        [Event.txn { txnEvent := some te, postTxnExecuted := n }]).world).1).2 = some e := by
      rw [r3]
      exact hf
    have hd := doFlush_of_failure env _ _
      (runLoop env b (newWorker env b0 workerCount)
        [Event.txn { txnEvent := some te, postTxnExecuted := n }]).locals.flushTimeSlice e r4 hf2
    rw [hd] at s3 s5
    obtain ⟨c, htr⟩ := s5 _ rfl
    obtain ⟨h1, h2, _, _, _, _⟩ := inert_readers _ (closeLog_inert c)
    have hfw : ∀ t, forwarded (Effect.close c :: t) = forwarded t := fun _ => rfl
    have hfwd : forwarded (closeLog c) = [] := by
      cases c <;> rfl
    refine ⟨r1, r2, ?_, ?_, (fun he => by cases he), fun e2 he2 => ⟨?_, ?_⟩⟩
    · rw [htr]
      show forwarded (closeLog c) = []
      exact hfwd
    · rw [htr]
      show some e :: flushCalls (closeLog c) = [some e]
      rw [h2]
    · rw [s3]
      cases he2
      rfl
    · rw [htr]
      show notified (closeLog c) = []
      exact h1

theorem skeleton_append (a c : List Effect) : skeleton (a ++ c) = skeleton a ++ skeleton c := by
  simp [skeleton, List.filter_append]

/-- The iteration that admits a task on a sinking table when the backend asks
for a flush and the flush succeeds. -/
theorem loopIter_urgent {β : Type} (env : Env β) (b : β) (w : worker) (l : Locals)
    (p : txnEvent × Notifier)
    (hu : ∀ (x : β) (y : Nat), (env.OnTxnEvent x y).2 = true)
    (hf : ∀ x : β, (env.Flush x).2 = none)
    (hs : p.1.tableSinkState = TableSinkState.sinking)
    (hl : w.postTxnExecutedCallbacks.elems = []) :
    (loopIter env b w l (admission p)).ret = none ∧
    (loopIter env b w l (admission p)).w.postTxnExecutedCallbacks.elems = [] ∧
    (loopIter env b w l (admission p)).w.hasPending = false ∧
    notified (loopIter env b w l (admission p)).trace = [p.2] ∧
    flushCalls (loopIter env b w l (admission p)).trace = [none] ∧
    skeleton (loopIter env b w l (admission p)).trace = urgentRound p := by
  have he := onEvent_of_sinking env b w p.1 p.2 hs
  have hm : loopIter env b w l (admission p) = flushIfNeeded env
      { world := (onEvent env b w p.1 p.2).world, w := (onEvent env b w p.1 p.2).w
        locals := { l with needFlush := (onEvent env b w p.1 p.2).ret }
        trace := Effect.select (admission p) :: (onEvent env b w p.1 p.2).trace } := by
    simp only [loopIter, selectCase, admission]
  have hret : (onEvent env b w p.1 p.2).ret = true := by
    rw [he]
    exact hu _ _
  have hpend : (onEvent env b w p.1 p.2).w.hasPending = true := by
    rw [he]
  have hled : (onEvent env b w p.1 p.2).w.postTxnExecutedCallbacks.elems = [p.2] := by
    rw [he]
    show (w.postTxnExecutedCallbacks.append env.growCap p.2).elems = [p.2]
    rw [Slice.append_elems, hl]
    rfl
  have htr : (onEvent env b w p.1 p.2).trace =
      [Effect.observeConflictDetect (timeSub p.1.conflictResolved p.1.start),
       Effect.observeQueue (timeSub (env.Now b).2 p.1.start),
       Effect.addHandledRows p.1.rows,
       Effect.onTxnEvent p.1.TxnCallbackableEvent
         (env.OnTxnEvent (env.Now b).1 p.1.TxnCallbackableEvent).2] := by
    rw [he]
  obtain ⟨_, f2, _, f4, f5⟩ := flushIfNeeded_of_set env
    { world := (onEvent env b w p.1 p.2).world, w := (onEvent env b w p.1 p.2).w
      locals := { l with needFlush := (onEvent env b w p.1 p.2).ret }
      trace := Effect.select (admission p) :: (onEvent env b w p.1 p.2).trace } hret
  have hd := doFlush_of_success env (onEvent env b w p.1 p.2).world (onEvent env b w p.1 p.2).w
    l.flushTimeSlice hpend (hf _)
  rw [← hm] at f2 f4 f5
  simp only [] at f2 f4 f5
  rw [hd] at f2 f4 f5
  simp only [hled, htr] at f4
  refine ⟨f5, ?_, ?_, ?_, ?_, ?_⟩
  · rw [f2]
    exact clearedSlice_elems _
  · rw [f2]
  · rw [f4]
    rfl
  · rw [f4]
    rfl
  · rw [f4]
    rfl

/-- The loop against the admissions of urgent tasks on a sinking table. -/
theorem loop_urgent {β : Type} (env : Env β)
    (hu : ∀ (x : β) (y : Nat), (env.OnTxnEvent x y).2 = true)
    (hf : ∀ x : β, (env.Flush x).2 = none) (tasks : List (txnEvent × Notifier)) :
    ∀ (b : β) (w : worker) (l : Locals),
    (∀ p ∈ tasks, p.1.tableSinkState = TableSinkState.sinking) →
    w.postTxnExecutedCallbacks.elems = [] → w.hasPending = false →
    (loop env b w l (tasks.map admission)).ret = none ∧
    (loop env b w l (tasks.map admission)).w.postTxnExecutedCallbacks.elems = [] ∧
    (loop env b w l (tasks.map admission)).w.hasPending = false ∧
    notified (loop env b w l (tasks.map admission)).trace = tasks.map Prod.snd ∧
    flushCalls (loop env b w l (tasks.map admission)).trace = tasks.map (fun _ => none) ∧
    skeleton (loop env b w l (tasks.map admission)).trace = urgentRounds tasks := by
  induction tasks with
  | nil =>
    intro b w l _ hl hp
    exact ⟨rfl, hl, hp, rfl, rfl, rfl⟩
  | cons p ps ih =>
    intro b w l hs hl _
    obtain ⟨i1, i2, i3, i4, i5, i6⟩ := loopIter_urgent env b w l p hu hf
      (hs p (List.mem_cons_self _ _)) hl
    obtain ⟨j1, j2, j3, j4, j5, j6⟩ := ih (loopIter env b w l (admission p)).world
      (loopIter env b w l (admission p)).w (loopIter env b w l (admission p)).locals
      (fun q hq => hs q (List.mem_cons_of_mem _ hq)) i2 i3
    rw [List.map_cons, loop_cons_none env b w l (admission p) (ps.map admission) i1]
    refine ⟨j1, j2, j3, ?_, ?_, ?_⟩
    · simp only [notified_append, i4, j4]
      rfl
    · simp only [flushCalls_append, i5, j5]
      rfl
    · simp only [skeleton_append, i6, j6]
      rfl

/-- C16: when `backend.OnTxnEvent` always answers true and `backend.Flush`
always succeeds, a worker fresh from `newWorker` that admits any sequence of
tasks on a sinking table handles each admission by one call of `Flush` followed
by the notifier of that task, before it takes the next alternative; after each
admission the ledger is empty and `hasPending` false, and the notifiers are
invoked in the order of admission, one flush for each. -/
theorem urgent_tasks_flushed_one_by_one {β : Type} (env : Env β) (b0 b : β)
    (workerCount : Int) (tasks : List (txnEvent × Notifier))
    (hpos : 0 < env.MaxFlushInterval b0)
    (hu : ∀ (x : β) (y : Nat), (env.OnTxnEvent x y).2 = true)
    (hf : ∀ x : β, (env.Flush x).2 = none)
    (hs : ∀ p ∈ tasks, p.1.tableSinkState = TableSinkState.sinking) :
    (runLoop env b (newWorker env b0 workerCount) (tasks.map admission)).ret = none ∧
    (runLoop env b (newWorker env b0 workerCount)
      (tasks.map admission)).w.postTxnExecutedCallbacks.elems = [] ∧
    (runLoop env b (newWorker env b0 workerCount) (tasks.map admission)).w.hasPending = false ∧
    notified (runLoop env b (newWorker env b0 workerCount) (tasks.map admission)).trace =
      tasks.map Prod.snd ∧
    flushCalls (runLoop env b (newWorker env b0 workerCount) (tasks.map admission)).trace =
      tasks.map (fun _ => none) ∧
    skeleton (runLoop env b (newWorker env b0 workerCount) (tasks.map admission)).trace =
      urgentRounds tasks := by
  obtain ⟨j1, j2, j3, j4, j5, j6⟩ := loop_urgent env hu hf tasks (env.Now b).1
    (newWorker env b0 workerCount) (initLocals (env.Now b).2) hs rfl rfl
  rcases runLoop_spec env b (newWorker env b0 workerCount) (tasks.map admission) with
    ⟨hneg, _⟩ | ⟨_, _, hret, ht, hw, _⟩ | ⟨o, c, _, hlr, _⟩
  · exact absurd hpos (not_lt.2 hneg)
  · rw [hret, ht, hw]
    exact ⟨rfl, j2, j3, j4, j5, j6⟩
  · rw [j1] at hlr
    cases hlr

/-- The statement of C16 on three tasks: three flushes and the notifiers 1, 2,
3 in that order. -/
theorem urgent_tasks_flushed_one_by_one_witness :
    0 < (timed 1000 0).MaxFlushInterval (world0 [] none) ∧
    (∀ (x : Script) (y : Nat), ((timed 1000 0).OnTxnEvent x y).2 = true) ∧
    (∀ x : Script, ((timed 1000 0).Flush x).2 = none) ∧
    (∀ p ∈ threeTasks, p.1.tableSinkState = TableSinkState.sinking) ∧
    notified (runLoop (timed 1000 0) (world0 [] none)
      (newWorker (timed 1000 0) (world0 [] none) 4) (threeTasks.map admission)).trace =
      [1, 2, 3] ∧
    flushCalls (runLoop (timed 1000 0) (world0 [] none)
      (newWorker (timed 1000 0) (world0 [] none) 4) (threeTasks.map admission)).trace =
      [none, none, none] :=
  have h1 : 0 < (timed 1000 0).MaxFlushInterval (world0 [] none) := by decide
  have h2 : ∀ (x : Script) (y : Nat), ((timed 1000 0).OnTxnEvent x y).2 = true :=
    fun _ _ => rfl
  have h3 : ∀ x : Script, ((timed 1000 0).Flush x).2 = none := fun _ => rfl
  have h4 : ∀ p ∈ threeTasks, p.1.tableSinkState = TableSinkState.sinking := by decide
  have h := urgent_tasks_flushed_one_by_one (timed 1000 0) (world0 [] none) (world0 [] none) 4
    threeTasks h1 h2 h3 h4
  ⟨h1, h2, h3, h4, h.2.2.2.1, h.2.2.2.2.1⟩

/-- The iteration for a nil item, entered with `needFlush` false. -/
theorem loopIter_nil_item {β : Type} (env : Env β) (b : β) (w : worker) (l : Locals)
    (n : Notifier) (hl : l.needFlush = false) :
    loopIter env b w l (Event.txn { txnEvent := none, postTxnExecuted := n }) =
      { world := b, w := w, locals := l
        trace := [Effect.select (Event.txn { txnEvent := none, postTxnExecuted := n })]
        ret := none } := by
  simp [loopIter, selectCase, flushIfNeeded, hl]

/-- C17: when `runLoop` is running and the `select` receives an item whose task
is nil, the iteration only records the receipt: `onEvent` is not called (no
callback, nothing handed to the backend), nothing is flushed or notified, the
worker (`hasPending`, the ledger), the locals and the world are as before, and
the loop goes on. -/
theorem nil_item_changes_nothing {β : Type} (env : Env β) (b : β) (w : worker)
    (evs : List Event) (n : Notifier) (hr : (runLoop env b w evs).ret = none) :
    (runLoop env b w (evs ++ [Event.txn { txnEvent := none, postTxnExecuted := n }])).trace =
      (runLoop env b w evs).trace ++
        [Effect.select (Event.txn { txnEvent := none, postTxnExecuted := n })] ∧
    (runLoop env b w (evs ++ [Event.txn { txnEvent := none, postTxnExecuted := n }])).w =
      (runLoop env b w evs).w ∧
    (runLoop env b w (evs ++ [Event.txn { txnEvent := none, postTxnExecuted := n }])).locals =
      (runLoop env b w evs).locals ∧
    (runLoop env b w (evs ++ [Event.txn { txnEvent := none, postTxnExecuted := n }])).world =
      (runLoop env b w evs).world ∧
    (runLoop env b w (evs ++ [Event.txn { txnEvent := none, postTxnExecuted := n }])).ret =
      none ∧
    callbacks (runLoop env b w
        (evs ++ [Event.txn { txnEvent := none, postTxnExecuted := n }])).trace =
      callbacks (runLoop env b w evs).trace ∧
    forwarded (runLoop env b w
        (evs ++ [Event.txn { txnEvent := none, postTxnExecuted := n }])).trace =
      forwarded (runLoop env b w evs).trace ∧
    notified (runLoop env b w
        (evs ++ [Event.txn { txnEvent := none, postTxnExecuted := n }])).trace =
      notified (runLoop env b w evs).trace ∧
    flushCalls (runLoop env b w
        (evs ++ [Event.txn { txnEvent := none, postTxnExecuted := n }])).trace =
      flushCalls (runLoop env b w evs).trace ∧
    admitted (runLoop env b w
        (evs ++ [Event.txn { txnEvent := none, postTxnExecuted := n }])).trace =
      admitted (runLoop env b w evs).trace := by
  have hnf := runLoop_needFlush env b w evs hr
  obtain ⟨s1, s2, s3, s4, _⟩ := runLoop_snoc env b w evs
    (Event.txn { txnEvent := none, postTxnExecuted := n }) hr
  have hit := loopIter_nil_item env (runLoop env b w evs).world (runLoop env b w evs).w
    (runLoop env b w evs).locals n hnf
  rw [hit] at s1 s2 s3 s4
  have htr := (s4 rfl).2
  refine ⟨htr, s1, s2, (s4 rfl).1, s3, ?_, ?_, ?_, ?_, ?_⟩
  · rw [htr]
    simp [callbacks, List.filterMap_append]
  · rw [htr]
    simp [forwarded, List.filterMap_append]
  · rw [htr, notified_append]
    simp [notified]
  · rw [htr, flushCalls_append]
    simp [flushCalls]
  · rw [htr, admitted_append]
    simp [admitted, admittedBy]

/-- The statement of C17 on a nil item received after the admission of a task
on a stopping table: the ledger still holds the one notifier. -/
theorem nil_item_changes_nothing_witness :
    (runLoop scripted (world0 [] none) freshWorker
      [Event.txn { txnEvent := some stoppingTask, postTxnExecuted := 1 }]).ret = none ∧
    (runLoop scripted (world0 [] none) freshWorker
      ([Event.txn { txnEvent := some stoppingTask, postTxnExecuted := 1 }] ++
        [Event.txn { txnEvent := none, postTxnExecuted := 77 }])).w =
      (runLoop scripted (world0 [] none) freshWorker
        [Event.txn { txnEvent := some stoppingTask, postTxnExecuted := 1 }]).w ∧
    (runLoop scripted (world0 [] none) freshWorker
      ([Event.txn { txnEvent := some stoppingTask, postTxnExecuted := 1 }] ++
        [Event.txn { txnEvent := none, postTxnExecuted := 77 }])).w.postTxnExecutedCallbacks.elems
      = [1] :=
  have h := nil_item_changes_nothing scripted (world0 [] none) freshWorker
    [Event.txn { txnEvent := some stoppingTask, postTxnExecuted := 1 }] 77 rfl
  ⟨rfl, h.2.1, rfl⟩

theorem Slice.append_cap {grow : Nat → Nat} (hg : ∀ c, c ≤ grow c) (s : Slice) (x : Notifier) :
    s.cap ≤ (s.append grow x).cap := by
  unfold Slice.append
  split
  · exact le_refl _
  · exact hg _

theorem clearedSlice_cap (s : Slice) (h : 1024 ≤ s.cap) : clearedSlice s = { elems := [], cap := 1024 } := by
  unfold clearedSlice
  split
  · rfl
  · rename_i hn
    have : s.cap = 1024 := le_antisymm (not_lt.1 hn) h
    rw [this]

theorem onEvent_ledger {β : Type} (env : Env β) (b : β) (w : worker) (txn : txnEvent)
    (n : Notifier) :
    (onEvent env b w txn n).w.postTxnExecutedCallbacks =
      w.postTxnExecutedCallbacks.append env.growCap n := by
  by_cases hs : txn.tableSinkState = TableSinkState.sinking
  · rw [onEvent_of_sinking env b w txn n hs]
  · rw [onEvent_of_not_sinking env b w txn n hs]

/-- The capacity of the ledger never falls below the baseline. -/
theorem callStep_cap {β : Type} (env : Env β) (hg : ∀ c, c ≤ env.growCap c) (s : CallsRes β)
    (c : Call) (h : 1024 ≤ s.w.postTxnExecutedCallbacks.cap) :
    1024 ≤ (callStep env s c).w.postTxnExecutedCallbacks.cap := by
  cases c with
  | onEvent txn n =>
    show 1024 ≤ (onEvent env s.world s.w txn n).w.postTxnExecutedCallbacks.cap
    rw [onEvent_ledger]
    exact h.trans (Slice.append_cap hg _ _)
  | doFlush =>
    show 1024 ≤ (doFlush env s.world s.w s.flushTimeSlice).w.postTxnExecutedCallbacks.cap
    cases hp : s.w.hasPending with
    | false =>
      rw [doFlush_of_idle env _ _ _ hp]
      exact h
    | true =>
      cases hf : (env.Flush (env.Now s.world).1).2 with
      | none =>
        rw [doFlush_of_success env _ _ _ hp hf]
        show 1024 ≤ (clearedSlice s.w.postTxnExecutedCallbacks).cap
        rw [clearedSlice_cap _ h]
      | some e =>
        rw [doFlush_of_failure env _ _ _ e hp hf]
        exact h

theorem foldl_callStep_cap {β : Type} (env : Env β) (hg : ∀ c, c ≤ env.growCap c)
    (cs : List Call) :
    ∀ s : CallsRes β, 1024 ≤ s.w.postTxnExecutedCallbacks.cap →
      1024 ≤ (cs.foldl (callStep env) s).w.postTxnExecutedCallbacks.cap := by
  induction cs with
  | nil => exact fun _ h => h
  | cons c cs ih => exact fun s h => ih _ (callStep_cap env hg s c h)

/-- C18: a successful `doFlush` of a worker with something pending leaves the
ledger empty with a capacity of at most 1024: 1024 when the capacity had grown
above it, the capacity it had otherwise; and since the ledger starts with a
capacity of 1024 and `append` never gives a smaller capacity than it found,
after any sequence of calls of `onEvent` and `doFlush` on a worker fresh from
`newWorker` the capacity is at least 1024, so that after every successful flush
it is exactly 1024. -/
theorem ledger_capacity_after_flush {β : Type} (env : Env β) (b0 b : β) (workerCount : Int)
    (cs : List Call) (hg : ∀ c, c ≤ env.growCap c) :
    (∀ (b2 : β) (w2 : worker) (fts : Duration), w2.hasPending = true →
      (env.Flush (env.Now b2).1).2 = none →
      (doFlush env b2 w2 fts).w.postTxnExecutedCallbacks.elems.length = 0 ∧
      (doFlush env b2 w2 fts).w.postTxnExecutedCallbacks.cap ≤ 1024 ∧
      (1024 < w2.postTxnExecutedCallbacks.cap →
        (doFlush env b2 w2 fts).w.postTxnExecutedCallbacks = { elems := [], cap := 1024 }) ∧
      (w2.postTxnExecutedCallbacks.cap ≤ 1024 →
        (doFlush env b2 w2 fts).w.postTxnExecutedCallbacks =
          { elems := [], cap := w2.postTxnExecutedCallbacks.cap })) ∧
    (newWorker env b0 workerCount).postTxnExecutedCallbacks.cap = 1024 ∧
    1024 ≤ (calls env b0 b workerCount cs).w.postTxnExecutedCallbacks.cap ∧
    ((calls env b0 b workerCount cs).w.hasPending = true →
      (env.Flush (env.Now (calls env b0 b workerCount cs).world).1).2 = none →
      (doFlush env (calls env b0 b workerCount cs).world (calls env b0 b workerCount cs).w
        (calls env b0 b workerCount cs).flushTimeSlice).w.postTxnExecutedCallbacks =
        { elems := [], cap := 1024 }) := by
  have hcap : 1024 ≤ (calls env b0 b workerCount cs).w.postTxnExecutedCallbacks.cap :=
    foldl_callStep_cap env hg cs
      { world := b, w := newWorker env b0 workerCount, flushTimeSlice := 0, trace := [],
        sinceFlush := [] } (le_refl _)
  refine ⟨fun b2 w2 fts hp hf => ?_, rfl, hcap, fun hp hf => ?_⟩
  · rw [doFlush_of_success env b2 w2 fts hp hf]
    show (clearedSlice w2.postTxnExecutedCallbacks).elems.length = 0 ∧
      (clearedSlice w2.postTxnExecutedCallbacks).cap ≤ 1024 ∧
      (1024 < w2.postTxnExecutedCallbacks.cap →
        clearedSlice w2.postTxnExecutedCallbacks = { elems := [], cap := 1024 }) ∧
      (w2.postTxnExecutedCallbacks.cap ≤ 1024 →
        clearedSlice w2.postTxnExecutedCallbacks =
          { elems := [], cap := w2.postTxnExecutedCallbacks.cap })
    unfold clearedSlice
    split
    · rename_i hgt
      exact ⟨rfl, le_refl _, fun _ => rfl, fun hle => absurd hgt (not_lt.2 hle)⟩
    · rename_i hn
      exact ⟨rfl, not_lt.1 hn, fun hgt => absurd hgt hn, fun _ => rfl⟩
  · rw [doFlush_of_success env _ _ _ hp hf]
    exact clearedSlice_cap _ hcap

/-- The statement of C18 on the admission of a task on a stopping table
followed by a successful flush: the capacity is 1024 before and after. -/
theorem ledger_capacity_after_flush_witness :
    (∀ c, c ≤ scripted.growCap c) ∧
    1024 ≤ (calls scripted (world0 [] none) (world0 [] none) 4
      [Call.onEvent stoppingTask 1]).w.postTxnExecutedCallbacks.cap ∧
    (doFlush scripted
      (calls scripted (world0 [] none) (world0 [] none) 4 [Call.onEvent stoppingTask 1]).world
      (calls scripted (world0 [] none) (world0 [] none) 4 [Call.onEvent stoppingTask 1]).w
      (calls scripted (world0 [] none) (world0 [] none) 4
        [Call.onEvent stoppingTask 1]).flushTimeSlice).w.postTxnExecutedCallbacks =
      { elems := [], cap := 1024 } :=
  have hg : ∀ c, c ≤ scripted.growCap c := fun c => by
    show c ≤ 2 * c + 1
    omega
  have h := ledger_capacity_after_flush scripted (world0 [] none) (world0 [] none) 4
    [Call.onEvent stoppingTask 1] hg
  ⟨hg, h.2.2.1, h.2.2.2 rfl rfl⟩

/-- The statement of C11 on the admission of a task followed by a successful
flush: nothing is pending, and one more `doFlush` calls `Flush` no more. -/
theorem hasPending_iff_admitted_witness :
    (calls scripted (world0 [] none) (world0 [] none) 4
      [Call.onEvent stoppingTask 1, Call.doFlush]).sinceFlush = [] ∧
    (calls scripted (world0 [] none) (world0 [] none) 4
      [Call.onEvent stoppingTask 1, Call.doFlush]).w.hasPending = false ∧
    flushCalls (calls scripted (world0 [] none) (world0 [] none) 4
      ([Call.onEvent stoppingTask 1, Call.doFlush] ++ [Call.doFlush])).trace =
      flushCalls (calls scripted (world0 [] none) (world0 [] none) 4
        [Call.onEvent stoppingTask 1, Call.doFlush]).trace :=
  ⟨rfl, rfl, (hasPending_iff_admitted scripted (world0 [] none) (world0 [] none) 4
    [Call.onEvent stoppingTask 1, Call.doFlush]).2.2.2 rfl⟩

/-- The statement of C12 on a flush interval tick handled after the admission
of a task on a stopping table: `needFlush` was false, and the tick sets it. -/
theorem doFlush_iff_triggered_witness :
    (runLoop scripted (world0 [] none) freshWorker
      [Event.txn { txnEvent := some stoppingTask, postTxnExecuted := 1 }]).ret = none ∧
    (runLoop scripted (world0 [] none) freshWorker
      [Event.txn { txnEvent := some stoppingTask, postTxnExecuted := 1 }]).locals.needFlush
      = false ∧
    triggersFlush scripted
      (runLoop scripted (world0 [] none) freshWorker
        [Event.txn { txnEvent := some stoppingTask, postTxnExecuted := 1 }]).world
      (runLoop scripted (world0 [] none) freshWorker
        [Event.txn { txnEvent := some stoppingTask, postTxnExecuted := 1 }]).w
      Event.tick = true :=
  have h := doFlush_iff_triggered scripted (world0 [] none) freshWorker
    [Event.txn { txnEvent := some stoppingTask, postTxnExecuted := 1 }] Event.tick
    { world := (runLoop scripted (world0 [] none) freshWorker
        [Event.txn { txnEvent := some stoppingTask, postTxnExecuted := 1 }]).world
      w := (runLoop scripted (world0 [] none) freshWorker
        [Event.txn { txnEvent := some stoppingTask, postTxnExecuted := 1 }]).w
      locals := { (runLoop scripted (world0 [] none) freshWorker
        [Event.txn { txnEvent := some stoppingTask,
                     postTxnExecuted := 1 }]).locals with needFlush := true }
      trace := [Effect.select Event.tick] } rfl rfl
  ⟨rfl, h.1, h.2.2.2.2.2.2.1⟩

/-- The statement of C15 on the task of a stopping table with notifier 1,
against a backend whose flush succeeds: one flush on the tick, then the
notifier. -/
theorem dropped_task_notified_at_tick_witness :
    0 < scripted.MaxFlushInterval (world0 [] none) ∧
    stoppingTask.tableSinkState ≠ TableSinkState.sinking ∧
    flushCalls (runLoop scripted (world0 [] none) (newWorker scripted (world0 [] none) 4)
      ([Event.txn { txnEvent := some stoppingTask, postTxnExecuted := 1 }] ++
        [Event.tick])).trace = [none] ∧
    notified (runLoop scripted (world0 [] none) (newWorker scripted (world0 [] none) 4)
      ([Event.txn { txnEvent := some stoppingTask, postTxnExecuted := 1 }] ++
        [Event.tick])).trace = [1] :=
  have h1 : 0 < scripted.MaxFlushInterval (world0 [] none) := by decide
  have h2 : stoppingTask.tableSinkState ≠ TableSinkState.sinking := by decide
  have h := dropped_task_notified_at_tick scripted (world0 [] none) (world0 [] none) 4
    stoppingTask 1 h1 h2
  ⟨h1, h2, h.2.2.2.1.trans rfl, rfl⟩

end Txn
